import Mathlib

/-!
Verification of the Norman hub integration (custom_components/norman).

We give a shallow embedding of the two core algorithms of the repository:

* the JSON stream framer of `NormanApiClient.async_listen_notifications`
  (api.py, lines 256-315): byte chunks are decoded with `errors="ignore"`,
  characters are scanned one at a time with a brace-depth counter, and each
  buffer that returns to depth 0 is handed to `json.loads`; successfully
  parsed objects are yielded iff they contain the key `"PeripheralList"`;

* the catalog/status merge `NormanCoordinator._process_data`
  (coordinator.py, lines 95-182), together with the reconnect loop
  `NormanCoordinator.listen_notifications` (coordinator.py, lines 38-68).

Python/JSON values are modelled by the inductive type `PyVal` (floats are
modelled as rationals; Python's `int()` truncates toward zero, which agrees
with rational truncation on every value considered here).  Python code that
would raise (attribute errors on non-dicts, type errors of `int()`, ...)
is modelled in the `Except Unit` monad or by `Option`-returning conversions,
exactly following the `try/except` structure of the source.
-/

namespace Norman

/-- Python/JSON values as produced by `json.loads` and manipulated by the
integration.  `float` is modelled as a rational number; `dict` is an
association list in insertion order (Python dicts coming from `json.loads`
have pairwise distinct keys, and lookup returns the first match). -/
inductive PyVal where
  | none
  | bool (b : Bool)
  | int (n : Int)
  | float (q : Rat)
  | str (s : String)
  | list (xs : List PyVal)
  | dict (kvs : List (String × PyVal))

/-- A Python dict with string keys (the top-level type of both inputs of
`_process_data`, annotated `dict[str, Any]` in the source). -/
abbrev PyDict := List (String × PyVal)

/-- First-match lookup in a Python dict. -/
def dictLookup (d : PyDict) (k : String) : Option PyVal :=
  match d with
  | [] => Option.none
  | (k', v) :: rest => if k' = k then some v else dictLookup rest k

/-- Python `d.get(k)` / `d.get(k, default)` on a value: only dicts have
`.get`; any other receiver raises `AttributeError`. -/
def pyGetD (v : PyVal) (k : String) (dflt : PyVal) : Except Unit PyVal :=
  match v with
  | .dict d => .ok ((dictLookup d k).getD dflt)
  | _ => .error ()

/-- Python `d.get(k)` (default `None`). -/
def pyGet (v : PyVal) (k : String) : Except Unit PyVal :=
  pyGetD v k PyVal.none

/-- Python `k in v` for a string `k`: key membership for dicts, element
membership for lists; other receivers raise `TypeError`.  (The string
receiver case, substring search, never arises in the code paths embedded
here and is folded into the error case.) -/
def pyContainsKey (k : String) (v : PyVal) : Except Unit Bool :=
  match v with
  | .dict d => .ok ((dictLookup d k).isSome)
  | .list xs =>
    .ok (xs.any (fun x => match x with | .str s => s = k | _ => false))
  | _ => .error ()

/-- Python `v[k]` for a string key `k`: dict lookup (`KeyError` when the key
is missing); list/str/other receivers raise `TypeError`. -/
def pyIndex (v : PyVal) (k : String) : Except Unit PyVal :=
  match v with
  | .dict d =>
    match dictLookup d k with
    | some x => .ok x
    | Option.none => .error ()
  | _ => .error ()

/-- Python `for x in v`: lists iterate their elements, dicts their keys,
strings their characters; other values raise `TypeError`. -/
def pyIterate (v : PyVal) : Except Unit (List PyVal) :=
  match v with
  | .list xs => .ok xs
  | .dict d => .ok (d.map (fun kv => PyVal.str kv.1))
  | .str s => .ok (s.toList.map (fun c => PyVal.str (String.mk [c])))
  | _ => .error ()

/-- Value of the digit string `cs` (most significant digit first). -/
def digitsToNat (cs : List Char) : Nat :=
  cs.foldl (fun a c => a * 10 + (c.toNat - 48)) 0

/-- Python `int(s)` on a string: strip surrounding whitespace, allow one
optional sign, then one or more decimal digits; anything else raises
`ValueError`.  (Underscore separators and non-ASCII digits, which CPython
also accepts, never occur in the inputs considered here.) -/
def parseIntStr (s : String) : Option Int :=
  let cs := ((s.toList.dropWhile Char.isWhitespace).reverse.dropWhile
      Char.isWhitespace).reverse
  match cs with
  | '+' :: rest =>
    if rest ≠ [] ∧ rest.all Char.isDigit then some (digitsToNat rest) else Option.none
  | '-' :: rest =>
    if rest ≠ [] ∧ rest.all Char.isDigit then some (-(digitsToNat rest : Int))
    else Option.none
  | rest =>
    if rest ≠ [] ∧ rest.all Char.isDigit then some (digitsToNat rest) else Option.none

/-- Truncation toward zero of a rational, the behaviour of Python `int()`
on a float. -/
def ratTrunc (q : Rat) : Int :=
  q.num.tdiv q.den

/-- Python `int(v)`: identity on ints, truncation on floats, digit-string
parsing on strings, 0/1 on bools; `None`, lists and dicts raise
`TypeError`.  `Option.none` models the `(TypeError, ValueError)` branch of
the source's `try/except`. -/
def pyInt : PyVal → Option Int
  | .bool b => some (if b then 1 else 0)
  | .int n => some n
  | .float q => some (ratTrunc q)
  | .str s => parseIntStr s
  | _ => Option.none

/-- Python `v is None`. -/
def PyVal.isNone : PyVal → Bool
  | .none => true
  | _ => false

/-- The rational 57/10, the value of the Python float literal `5.7` up to
the double-precision rounding that truncation is insensitive to here. -/
def ratFiveSeven : Rat := ⟨57, 10, by decide, by decide⟩

example : pyInt (PyVal.str "5") = some 5 := by decide
example : pyInt (PyVal.str " -12 ") = some (-12) := by decide
example : pyInt (PyVal.str "5.7") = Option.none := by decide
example : pyInt (PyVal.float ratFiveSeven) = some 5 := by decide
example : pyInt (PyVal.float ⟨-57, 10, by decide, by decide⟩) = some (-5) := by decide
example : pyInt PyVal.none = Option.none := by decide

/-! Constants from const.py. -/

/-- Cover type constant `COVER_TYPE_SMARTDRAPE` (const.py line 19). -/
def COVER_TYPE_SMARTDRAPE : String := "smartdrape"

/-- Seconds to wait after a disconnect before reconnecting
(`RECONNECT_INTERVAL`, const.py line 13). -/
def RECONNECT_INTERVAL : Nat := 15

/-- Maximum seconds before a forced reconnect of the notification stream
(`NOTIF_MAX_DURATION`, const.py line 14). -/
def NOTIF_MAX_DURATION : Nat := 300

/-- Embedding of the dataclass `NormanPeripheralData` (models.py).  The
Python dataclass is only type-annotated, not enforced, and the merge code
stores whatever `dict.get` returned into each field, so every field that
receives raw hub data has type `PyVal` here; absent optional fields default
to `None` exactly as in the dataclass. -/
structure NormanPeripheralData where
  id : Int
  name : PyVal
  type : String
  room_id : PyVal := PyVal.none
  room_name : PyVal := PyVal.none
  group_id : PyVal := PyVal.none
  group_name : PyVal := PyVal.none
  module_type : PyVal := PyVal.none
  module_detail : PyVal := PyVal.none
  bottom_rail_position : PyVal := PyVal.none
  middle_rail_position : PyVal := PyVal.none
  target_bottom_rail_position : PyVal := PyVal.none
  target_middle_rail_position : PyVal := PyVal.none
  battery_level : PyVal := PyVal.none
  firmware_version : PyVal := PyVal.none
  last_update : PyVal := PyVal.none

instance : Inhabited NormanPeripheralData :=
  ⟨{ id := 0, name := PyVal.none, type := "" }⟩

/-- Embedding of `NormanDeviceData = dict[int, NormanPeripheralData]`
(models.py line 31), modelled as an association list in insertion order. -/
abbrev Devices := List (Int × NormanPeripheralData)

/-- Python dict assignment `devices[k] = v`: replace the value in place if
the key is present (keeping its position), else append at the end. -/
def devSet : Devices → Int → NormanPeripheralData → Devices
  | [], k, v => [(k, v)]
  | (k', v') :: rest, k, v =>
    if k' = k then (k, v) :: rest else (k', v') :: devSet rest k v

/-- Python dict lookup `devices[k]` / membership `k in devices`. -/
def devLookup : Devices → Int → Option NormanPeripheralData
  | [], _ => Option.none
  | (k', v) :: rest, k => if k' = k then some v else devLookup rest k

/-- Keys of a device snapshot, in insertion order. -/
def devKeys (d : Devices) : List Int := d.map (fun kv => kv.1)

/-! Embedding of `NormanCoordinator._process_data` (coordinator.py lines
95-182).  The nested `for` loops are rendered as `foldlM` in the
`Except Unit` monad; `.error ()` models an uncaught Python exception
(there is no `try/except` around the loops in the source, so any such
exception would escape `_process_data`). -/

/-- Loop body for one entry of `group.get("PeripheralList", [])`
(coordinator.py lines 123-147). -/
def processPeripheral (room_id room_name group_id group_name : PyVal)
    (devices : Devices) (peripheral : PyVal) : Except Unit Devices := do
  let peripheral_uid_raw ← pyGet peripheral "PeripheralUID"
  if peripheral_uid_raw.isNone then
    pure devices
  else match pyInt peripheral_uid_raw with
  | Option.none => pure devices
  | some peripheral_uid => do
    let pname ← pyGetD peripheral "PeripheralName"
      (PyVal.str ("Norman " ++ toString peripheral_uid))
    let mtype ← pyGet peripheral "ModuleType"
    let mdetail ← pyGet peripheral "ModuleDetail"
    return devSet devices peripheral_uid {
      id := peripheral_uid
      name := pname
      type := COVER_TYPE_SMARTDRAPE
      room_id := room_id
      room_name := room_name
      group_id := group_id
      group_name := group_name
      module_type := mtype
      module_detail := mdetail }

/-- Loop body for one entry of `room.get("GroupList", [])`
(coordinator.py lines 118-147). -/
def processGroup (room_id room_name : PyVal) (devices : Devices)
    (group : PyVal) : Except Unit Devices := do
  let group_id ← pyGet group "GroupID"
  let group_name ← pyGetD group "GroupName" (PyVal.str "")
  let plist ← pyGetD group "PeripheralList" (PyVal.list [])
  let peris ← pyIterate plist
  peris.foldlM (processPeripheral room_id room_name group_id group_name) devices

/-- Loop body for one entry of `room_list` (coordinator.py lines 113-147). -/
def processRoom (devices : Devices) (room : PyVal) : Except Unit Devices := do
  let room_id ← pyGet room "RoomID"
  let room_name ← pyGetD room "RoomName" (PyVal.str "")
  let glist ← pyGetD room "GroupList" (PyVal.list [])
  let groups ← pyIterate glist
  groups.foldlM (processGroup room_id room_name) devices

/-- Loop body for one entry of `status_data["Peripherals"]`
(coordinator.py lines 151-180): skip unparseable IDs, create a minimal
record when the ID is new, then overwrite the seven status fields with the
entry's `.get` values. -/
def processStatusEntry (devices : Devices) (peripheral : PyVal) :
    Except Unit Devices := do
  let peripheral_uid_raw ← pyGet peripheral "PeripheralUID"
  if peripheral_uid_raw.isNone then
    pure devices
  else match pyInt peripheral_uid_raw with
  | Option.none => pure devices
  | some peripheral_uid => do
    let devices :=
      if (devLookup devices peripheral_uid).isNone then
        devSet devices peripheral_uid {
          id := peripheral_uid
          name := PyVal.str ("Norman " ++ toString peripheral_uid)
          type := COVER_TYPE_SMARTDRAPE }
      else devices
    let device := (devLookup devices peripheral_uid).getD default
    let brp ← pyGet peripheral "BottomRailPosition"
    let mrp ← pyGet peripheral "MiddleRailPosition"
    let tbrp ← pyGet peripheral "TargetBottomRailPosition"
    let tmrp ← pyGet peripheral "TargetMiddleRailPosition"
    let batt ← pyGet peripheral "BatteryVoltage"
    let fw ← pyGet peripheral "FirmwareVersion"
    let ts ← pyGet peripheral "Timestamp"
    return devSet devices peripheral_uid { device with
      bottom_rail_position := brp
      middle_rail_position := mrp
      target_bottom_rail_position := tbrp
      target_middle_rail_position := tmrp
      battery_level := batt
      firmware_version := fw
      last_update := ts }

/-- Embedding of `NormanCoordinator._process_data` (coordinator.py lines
95-182).  Both arguments are Python dicts (the source annotates them
`dict[str, Any]`). -/
def process_data (device_info status_data : PyDict) : Except Unit Devices := do
  let devices : Devices := []
  let devices ←
    if (dictLookup device_info "results").isSome then do
      let results := (dictLookup device_info "results").getD PyVal.none
      let hasRoomList ← pyContainsKey "RoomList" results
      if hasRoomList then do
        let room_list ← pyIndex results "RoomList"
        let rooms ← pyIterate room_list
        rooms.foldlM processRoom devices
      else
        pure devices
    else
      pure devices
  if (dictLookup status_data "Peripherals").isSome then do
    let plist := (dictLookup status_data "Peripherals").getD PyVal.none
    let peris ← pyIterate plist
    peris.foldlM processStatusEntry devices
  else
    pure devices

/-! Well-shaped catalog and status inputs.  `_process_data` is fed the
parsed JSON of the `GetAllPeripheral` and `status` endpoints, whose
documented shape is `results.RoomList` (a list of room dicts, each with a
`GroupList` of group dicts, each with a `PeripheralList` of peripheral
dicts) and `Peripherals` (a list of peripheral dicts).  The builders below
quantify over every input of that shape while leaving all field values,
extra keys and list contents free. -/

/-- A catalog group: its own dict fields plus a list of peripheral dicts. -/
abbrev GroupJ := PyDict × List PyDict

/-- A catalog room: its own dict fields plus its groups. -/
abbrev RoomJ := PyDict × List GroupJ

/-- Build the JSON dict of one group; `PeripheralList` is put first so that
lookups of the structural key are unaffected by the free fields. -/
def mkGroup (g : GroupJ) : PyVal :=
  PyVal.dict (("PeripheralList", PyVal.list (g.2.map PyVal.dict)) :: g.1)

/-- Build the JSON dict of one room. -/
def mkRoom (r : RoomJ) : PyVal :=
  PyVal.dict (("GroupList", PyVal.list (r.2.map mkGroup)) :: r.1)

/-- Build a `GetAllPeripheral` response from a list of rooms. -/
def mkCatalog (rooms : List RoomJ) : PyDict :=
  [("results", PyVal.dict [("RoomList", PyVal.list (rooms.map mkRoom))])]

/-- Build a `status` response from a list of peripheral dicts. -/
def mkStatus (peris : List PyDict) : PyDict :=
  [("Peripherals", PyVal.list (peris.map PyVal.dict))]

/-- The peripheral ID the merge derives from a peripheral dict: the value
of `"PeripheralUID"` (with `.get`'s `None` default), skipped when it `is
None` or when `int()` raises (coordinator.py lines 124-130 and 152-158). -/
def uidOf (p : PyDict) : Option Int :=
  let raw := (dictLookup p "PeripheralUID").getD PyVal.none
  if raw.isNone then Option.none else pyInt raw

/-- Parseable integer peripheral IDs of a catalog, in hierarchy order.
This is the spec-side characterisation of "IDs appearing in the catalog
input". -/
def catalogUids (rooms : List RoomJ) : List Int :=
  rooms.flatMap (fun r => r.2.flatMap (fun g => g.2.filterMap uidOf))

/-- Parseable integer peripheral IDs of a status input, in list order.
This is the spec-side characterisation of "IDs appearing in the status
input". -/
def statusUids (peris : List PyDict) : List Int :=
  peris.filterMap uidOf

/-- The `(room_id, room_name)` pair the catalog pass reads from a room's
fields (coordinator.py lines 114-115). -/
def roomCtx (rf : PyDict) : PyVal × PyVal :=
  ((dictLookup rf "RoomID").getD PyVal.none,
   (dictLookup rf "RoomName").getD (PyVal.str ""))

/-- The `(group_id, group_name)` pair the catalog pass reads from a group's
fields (coordinator.py lines 119-120). -/
def groupCtx (gf : PyDict) : PyVal × PyVal :=
  ((dictLookup gf "GroupID").getD PyVal.none,
   (dictLookup gf "GroupName").getD (PyVal.str ""))

/-- The record the catalog pass stores for one peripheral dict with a
parseable ID (coordinator.py lines 135-147), or `none` when the peripheral
is skipped. -/
def catalogEntry (rc gc : PyVal × PyVal) (p : PyDict) :
    Option (Int × NormanPeripheralData) :=
  (uidOf p).map (fun uid =>
    (uid,
      { id := uid
        name := (dictLookup p "PeripheralName").getD
          (PyVal.str ("Norman " ++ toString uid))
        type := COVER_TYPE_SMARTDRAPE
        room_id := rc.1
        room_name := rc.2
        group_id := gc.1
        group_name := gc.2
        module_type := (dictLookup p "ModuleType").getD PyVal.none
        module_detail := (dictLookup p "ModuleDetail").getD PyVal.none }))

/-- All `(id, record)` pairs of the catalog pass, in traversal order. -/
def catalogEntries (rooms : List RoomJ) : List (Int × NormanPeripheralData) :=
  rooms.flatMap (fun r =>
    r.2.flatMap (fun g =>
      g.2.filterMap (catalogEntry (roomCtx r.1) (groupCtx g.1))))

/-- Insert a list of entries into a snapshot, later entries overwriting
earlier ones with the same key. -/
def insertEntries (init : Devices) (l : List (Int × NormanPeripheralData)) :
    Devices :=
  l.foldl (fun d e => devSet d e.1 e.2) init

/-- Result of the catalog pass on a well-shaped catalog. -/
def catalogPass (rooms : List RoomJ) : Devices :=
  insertEntries [] (catalogEntries rooms)

/-- The minimal record created for a status-only device
(coordinator.py lines 162-166). -/
def minimalRec (uid : Int) : NormanPeripheralData :=
  { id := uid
    name := PyVal.str ("Norman " ++ toString uid)
    type := COVER_TYPE_SMARTDRAPE }

/-- Overwrite the seven status fields of a record with the `.get` values of
a status peripheral dict (coordinator.py lines 169-180). -/
def overlay (b : NormanPeripheralData) (p : PyDict) : NormanPeripheralData :=
  { b with
    bottom_rail_position := (dictLookup p "BottomRailPosition").getD PyVal.none
    middle_rail_position := (dictLookup p "MiddleRailPosition").getD PyVal.none
    target_bottom_rail_position :=
      (dictLookup p "TargetBottomRailPosition").getD PyVal.none
    target_middle_rail_position :=
      (dictLookup p "TargetMiddleRailPosition").getD PyVal.none
    battery_level := (dictLookup p "BatteryVoltage").getD PyVal.none
    firmware_version := (dictLookup p "FirmwareVersion").getD PyVal.none
    last_update := (dictLookup p "Timestamp").getD PyVal.none }

/-- Effect of one status entry on the snapshot. -/
def statusStep (d : Devices) (p : PyDict) : Devices :=
  match uidOf p with
  | some uid => devSet d uid (overlay ((devLookup d uid).getD (minimalRec uid)) p)
  | Option.none => d

/-- The merge on well-shaped inputs, as a pure function. -/
def mergePure (rooms : List RoomJ) (peris : List PyDict) : Devices :=
  peris.foldl statusStep (catalogPass rooms)

/-! Equivalence of `process_data` with the pure merge on well-shaped
inputs. -/

theorem foldlM_ok {α β : Type} (f : β → α → Except Unit β) (g : β → α → β)
    (l : List α) (h : ∀ b a, a ∈ l → f b a = .ok (g b a)) (b : β) :
    l.foldlM f b = .ok (l.foldl g b) := by
  induction l generalizing b with
  | nil => rfl
  | cons x xs ih =>
    have hx : f b x = .ok (g b x) := h b x (List.mem_cons_self x xs)
    calc (x :: xs).foldlM f b = f b x >>= fun b2 => xs.foldlM f b2 := by
          simp [List.foldlM]
      _ = xs.foldlM f (g b x) := by rw [hx]; rfl
      _ = .ok (xs.foldl g (g b x)) :=
          ih (fun b a ha => h b a (List.mem_cons_of_mem x ha)) _
      _ = .ok ((x :: xs).foldl g b) := by simp [List.foldl]

theorem processPeripheral_dict (ri rn gi gn : PyVal) (d : Devices) (p : PyDict) :
    processPeripheral ri rn gi gn d (PyVal.dict p) =
      .ok (match catalogEntry (ri, rn) (gi, gn) p with
           | some e => devSet d e.1 e.2
           | Option.none => d) := by
  have lhs : processPeripheral ri rn gi gn d (PyVal.dict p) =
      (if ((dictLookup p "PeripheralUID").getD PyVal.none).isNone then
        pure d
      else match pyInt ((dictLookup p "PeripheralUID").getD PyVal.none) with
      | Option.none => pure d
      | some uid =>
        pure (devSet d uid
          { id := uid
            name := (dictLookup p "PeripheralName").getD
              (PyVal.str ("Norman " ++ toString uid))
            type := COVER_TYPE_SMARTDRAPE
            room_id := ri
            room_name := rn
            group_id := gi
            group_name := gn
            module_type := (dictLookup p "ModuleType").getD PyVal.none
            module_detail := (dictLookup p "ModuleDetail").getD PyVal.none })) :=
    rfl
  rw [lhs]
  unfold catalogEntry uidOf
  cases hN : ((dictLookup p "PeripheralUID").getD PyVal.none).isNone with
  | true => simp [hN]; rfl
  | false =>
    simp only [hN, Bool.false_eq_true, if_false]
    cases hI : pyInt ((dictLookup p "PeripheralUID").getD PyVal.none) with
    | none => simp; rfl
    | some uid => simp; rfl

/-- The per-peripheral loop of the catalog pass, as a pure fold. -/
theorem foldl_catalogStep (rc gc : PyVal × PyVal) (ps : List PyDict)
    (d : Devices) :
    ps.foldl (fun d p =>
        match catalogEntry rc gc p with
        | some e => devSet d e.1 e.2
        | Option.none => d) d =
      insertEntries d (ps.filterMap (catalogEntry rc gc)) := by
  induction ps generalizing d with
  | nil => rfl
  | cons p ps ih =>
    cases h : catalogEntry rc gc p with
    | none => simp [List.foldl, h, List.filterMap_cons, ih, insertEntries]
    | some e => simp [List.foldl, h, List.filterMap_cons, ih, insertEntries]

theorem processGroup_mk (ri rn : PyVal) (d : Devices) (g : GroupJ) :
    processGroup ri rn d (mkGroup g) =
      .ok (insertEntries d
        (g.2.filterMap (catalogEntry (ri, rn) (groupCtx g.1)))) := by
  have lhs : processGroup ri rn d (mkGroup g) =
      (g.2.map PyVal.dict).foldlM
        (processPeripheral ri rn (groupCtx g.1).1 (groupCtx g.1).2) d := rfl
  rw [lhs]
  rw [foldlM_ok _
    (fun d x => match x with
      | PyVal.dict p =>
        (match catalogEntry (ri, rn) (groupCtx g.1) p with
         | some e => devSet d e.1 e.2
         | Option.none => d)
      | _ => d)
    _ ?_]
  · rw [List.foldl_map]
    rw [show ∀ dd, (g.2.foldl (fun d x =>
        match catalogEntry (ri, rn) (groupCtx g.1) x with
        | some e => devSet d e.1 e.2
        | Option.none => d) dd) =
        insertEntries dd (g.2.filterMap (catalogEntry (ri, rn) (groupCtx g.1)))
      from fun dd => foldl_catalogStep _ _ _ dd]
  · intro b a ha
    rcases List.mem_map.mp ha with ⟨p, _, rfl⟩
    exact processPeripheral_dict ri rn (groupCtx g.1).1 (groupCtx g.1).2 b p

theorem foldlM_map_ok {α β γ : Type} (f : α → γ) (F : β → γ → Except Unit β)
    (G : β → α → β) (l : List α) (h : ∀ b a, a ∈ l → F b (f a) = .ok (G b a))
    (b : β) : (l.map f).foldlM F b = .ok (l.foldl G b) := by
  induction l generalizing b with
  | nil => rfl
  | cons x xs ih =>
    have hx : F b (f x) = .ok (G b x) := h b x (List.mem_cons_self x xs)
    calc ((x :: xs).map f).foldlM F b
        = F b (f x) >>= fun b2 => (xs.map f).foldlM F b2 := by
          simp [List.foldlM]
      _ = (xs.map f).foldlM F (G b x) := by rw [hx]; rfl
      _ = .ok (xs.foldl G (G b x)) :=
          ih (fun b a ha => h b a (List.mem_cons_of_mem x ha)) _
      _ = .ok ((x :: xs).foldl G b) := by simp [List.foldl]

theorem insertEntries_append (d : Devices)
    (l₁ l₂ : List (Int × NormanPeripheralData)) :
    insertEntries d (l₁ ++ l₂) = insertEntries (insertEntries d l₁) l₂ := by
  simp [insertEntries, List.foldl_append]

theorem foldl_insert_flatMap {α : Type} (f : α → List (Int × NormanPeripheralData))
    (l : List α) (d : Devices) :
    l.foldl (fun d x => insertEntries d (f x)) d = insertEntries d (l.flatMap f) := by
  induction l generalizing d with
  | nil => rfl
  | cons x xs ih => simp [List.foldl, List.flatMap_cons, insertEntries_append, ih]

theorem processRoom_mk (d : Devices) (r : RoomJ) :
    processRoom d (mkRoom r) =
      .ok (insertEntries d (r.2.flatMap (fun g =>
        g.2.filterMap (catalogEntry (roomCtx r.1) (groupCtx g.1))))) := by
  have lhs : processRoom d (mkRoom r) =
      (r.2.map mkGroup).foldlM
        (processGroup (roomCtx r.1).1 (roomCtx r.1).2) d := rfl
  rw [lhs]
  rw [foldlM_map_ok mkGroup _
    (fun d g => insertEntries d
      (g.2.filterMap (catalogEntry (roomCtx r.1) (groupCtx g.1)))) _ ?_ d]
  · rw [foldl_insert_flatMap]
  · intro b g _
    exact processGroup_mk (roomCtx r.1).1 (roomCtx r.1).2 b g

/-! Basic dict-update lemmas. -/

theorem devLookup_devSet_self (d : Devices) (k : Int) (v : NormanPeripheralData) :
    devLookup (devSet d k v) k = some v := by
  induction d with
  | nil => simp [devSet, devLookup]
  | cons e rest ih =>
    by_cases h : e.1 = k
    · simp [devSet, devLookup, h]
    · simp [devSet, devLookup, h, ih]

theorem devLookup_devSet_ne (d : Devices) (k k' : Int)
    (v : NormanPeripheralData) (h : k' ≠ k) :
    devLookup (devSet d k v) k' = devLookup d k' := by
  induction d with
  | nil => simp [devSet, devLookup, Ne.symm h]
  | cons e rest ih =>
    by_cases he : e.1 = k
    · simp [devSet, devLookup, he, Ne.symm h]
    · simp only [devSet, he, if_false, devLookup]
      by_cases he' : e.1 = k'
      · simp [he']
      · simp [he', ih]

theorem devSet_devSet (d : Devices) (k : Int) (a b : NormanPeripheralData) :
    devSet (devSet d k a) k b = devSet d k b := by
  induction d with
  | nil => simp [devSet]
  | cons e rest ih =>
    by_cases h : e.1 = k
    · simp [devSet, h]
    · simp [devSet, h, ih]

theorem processStatusEntry_dict (d : Devices) (p : PyDict) :
    processStatusEntry d (PyVal.dict p) = .ok (statusStep d p) := by
  have lhs : processStatusEntry d (PyVal.dict p) =
      (if ((dictLookup p "PeripheralUID").getD PyVal.none).isNone then
        pure d
      else match pyInt ((dictLookup p "PeripheralUID").getD PyVal.none) with
      | Option.none => pure d
      | some uid =>
        pure (
          let d2 := if (devLookup d uid).isNone then
              devSet d uid (minimalRec uid)
            else d
          let device := (devLookup d2 uid).getD default
          devSet d2 uid { device with
            bottom_rail_position := (dictLookup p "BottomRailPosition").getD PyVal.none
            middle_rail_position := (dictLookup p "MiddleRailPosition").getD PyVal.none
            target_bottom_rail_position :=
              (dictLookup p "TargetBottomRailPosition").getD PyVal.none
            target_middle_rail_position :=
              (dictLookup p "TargetMiddleRailPosition").getD PyVal.none
            battery_level := (dictLookup p "BatteryVoltage").getD PyVal.none
            firmware_version := (dictLookup p "FirmwareVersion").getD PyVal.none
            last_update := (dictLookup p "Timestamp").getD PyVal.none })) := rfl
  rw [lhs]
  unfold statusStep uidOf overlay
  cases hN : ((dictLookup p "PeripheralUID").getD PyVal.none).isNone with
  | true => simp [hN]; rfl
  | false =>
    simp only [hN, Bool.false_eq_true, if_false]
    cases hI : pyInt ((dictLookup p "PeripheralUID").getD PyVal.none) with
    | none => simp; rfl
    | some uid =>
      simp only
      cases hL : devLookup d uid with
      | none =>
        simp only [hL, Option.isNone_none, if_true, Option.getD_none,
          devLookup_devSet_self, Option.getD_some, devSet_devSet]
        rfl
      | some v =>
        simp [hL]
        rfl

theorem process_data_mk (rooms : List RoomJ) (peris : List PyDict) :
    process_data (mkCatalog rooms) (mkStatus peris) =
      .ok (mergePure rooms peris) := by
  have lhs : process_data (mkCatalog rooms) (mkStatus peris) =
      ((rooms.map mkRoom).foldlM processRoom ([] : Devices) >>= fun devices =>
        (peris.map PyVal.dict).foldlM processStatusEntry devices) := rfl
  rw [lhs]
  rw [foldlM_map_ok mkRoom _
    (fun d r => insertEntries d (r.2.flatMap (fun g =>
      g.2.filterMap (catalogEntry (roomCtx r.1) (groupCtx g.1))))) _
    (fun b r _ => processRoom_mk b r) ([] : Devices)]
  rw [foldl_insert_flatMap]
  show (peris.map PyVal.dict).foldlM processStatusEntry (catalogPass rooms) =
    .ok (mergePure rooms peris)
  rw [foldlM_map_ok PyVal.dict _ statusStep _
    (fun b p _ => processStatusEntry_dict b p) (catalogPass rooms)]
  rfl

/-! Lookup characterisation of the two passes: later entries with the same
key overwrite earlier ones, exactly like repeated Python dict assignment. -/

/-- The last element of `l` whose key is `k`. -/
def findLastEntry (k : Int) :
    List (Int × NormanPeripheralData) → Option NormanPeripheralData
  | [] => Option.none
  | e :: es =>
    match findLastEntry k es with
    | some v => some v
    | Option.none => if e.1 = k then some e.2 else Option.none

theorem devLookup_insertEntries (init : Devices)
    (l : List (Int × NormanPeripheralData)) (k : Int) :
    devLookup (insertEntries init l) k =
      match findLastEntry k l with
      | some v => some v
      | Option.none => devLookup init k := by
  induction l generalizing init with
  | nil => simp [insertEntries, findLastEntry]
  | cons e es ih =>
    have hstep : insertEntries init (e :: es) =
        insertEntries (devSet init e.1 e.2) es := rfl
    rw [hstep, ih]
    cases h : findLastEntry k es with
    | some v => simp [findLastEntry, h]
    | none =>
      by_cases he : e.1 = k
      · subst he
        simp [findLastEntry, h, devLookup_devSet_self]
      · have : k ≠ e.1 := fun hh => he hh.symm
        simp [findLastEntry, h, he, devLookup_devSet_ne init e.1 k e.2 this]

/-- The last status entry whose parsed ID is `k`. -/
def lastRel (k : Int) : List PyDict → Option PyDict
  | [] => Option.none
  | p :: rest =>
    match lastRel k rest with
    | some q => some q
    | Option.none => if uidOf p = some k then some p else Option.none

/-- Overwriting the status fields twice keeps only the second write;
all other fields come from the original base either way. -/
theorem overlay_overlay (b : NormanPeripheralData) (p q : PyDict) :
    overlay (overlay b p) q = overlay b q := rfl

theorem devLookup_foldl_statusStep (peris : List PyDict) (d : Devices)
    (k : Int) :
    devLookup (peris.foldl statusStep d) k =
      match lastRel k peris with
      | some p => some (overlay ((devLookup d k).getD (minimalRec k)) p)
      | Option.none => devLookup d k := by
  induction peris generalizing d with
  | nil => simp [lastRel]
  | cons p rest ih =>
    rw [List.foldl_cons, ih]
    cases h : lastRel k rest with
    | some q =>
      simp only [lastRel, h]
      cases hu : uidOf p with
      | none => simp [statusStep, hu]
      | some uid =>
        by_cases hk : uid = k
        · subst hk
          simp [statusStep, hu, devLookup_devSet_self, overlay_overlay]
        · have : k ≠ uid := fun hh => hk hh.symm
          simp [statusStep, hu, devLookup_devSet_ne d uid k _ this]
    | none =>
      simp only [lastRel, h]
      cases hu : uidOf p with
      | none => simp [statusStep, hu]
      | some uid =>
        by_cases hk : uid = k
        · subst hk
          simp [statusStep, hu, devLookup_devSet_self]
        · have : k ≠ uid := fun hh => hk hh.symm
          simp [statusStep, hu, hk, devLookup_devSet_ne d uid k _ this]

/-! Key sets. -/

theorem devLookup_isSome_iff (d : Devices) (k : Int) :
    (devLookup d k).isSome ↔ k ∈ devKeys d := by
  induction d with
  | nil => simp [devLookup, devKeys]
  | cons e rest ih =>
    by_cases he : e.1 = k
    · simp [devLookup, devKeys, he]
    · have : k ≠ e.1 := fun hh => he hh.symm
      simp [devLookup, devKeys, he, this, ih]

theorem devKeys_devSet (d : Devices) (k : Int) (v : NormanPeripheralData) :
    devKeys (devSet d k v) =
      if k ∈ devKeys d then devKeys d else devKeys d ++ [k] := by
  induction d with
  | nil => simp [devSet, devKeys]
  | cons e rest ih =>
    by_cases he : e.1 = k
    · simp [devSet, devKeys, he]
    · have hne : ¬ k = e.1 := fun hh => he hh.symm
      have hstep : devSet (e :: rest) k v = e :: devSet rest k v := by
        simp [devSet, he]
      rw [hstep]
      have hkeys : devKeys (e :: devSet rest k v) =
          e.1 :: devKeys (devSet rest k v) := rfl
      rw [hkeys, ih]
      by_cases hm : k ∈ rest.map (fun kv : Int × NormanPeripheralData => kv.1)
      · simp [devKeys, List.mem_cons, hne, hm]
      · simp [devKeys, List.mem_cons, hne, hm]

theorem nodup_devKeys_devSet (d : Devices) (k : Int)
    (v : NormanPeripheralData) (h : (devKeys d).Nodup) :
    (devKeys (devSet d k v)).Nodup := by
  rw [devKeys_devSet]
  by_cases hm : k ∈ devKeys d
  · simpa [hm] using h
  · simp only [hm, if_false]
    exact List.Nodup.append h (List.nodup_singleton k)
      (by simpa [List.disjoint_singleton] using hm)

theorem nodup_devKeys_insertEntries (init : Devices)
    (l : List (Int × NormanPeripheralData)) (h : (devKeys init).Nodup) :
    (devKeys (insertEntries init l)).Nodup := by
  induction l generalizing init with
  | nil => exact h
  | cons e es ih =>
    exact ih (devSet init e.1 e.2) (nodup_devKeys_devSet init e.1 e.2 h)

theorem nodup_devKeys_statusFold (peris : List PyDict) (d : Devices)
    (h : (devKeys d).Nodup) : (devKeys (peris.foldl statusStep d)).Nodup := by
  induction peris generalizing d with
  | nil => exact h
  | cons p rest ih =>
    refine ih (statusStep d p) ?_
    unfold statusStep
    cases hu : uidOf p with
    | none => exact h
    | some uid => exact nodup_devKeys_devSet d uid _ h

/-! Relating entry keys to the spec-side ID extraction. -/

theorem map_fst_filterMap_catalogEntry (rc gc : PyVal × PyVal)
    (ps : List PyDict) :
    (ps.filterMap (catalogEntry rc gc)).map (fun e => e.1) =
      ps.filterMap uidOf := by
  induction ps with
  | nil => rfl
  | cons p rest ih =>
    cases h : uidOf p with
    | none =>
      have hce : catalogEntry rc gc p = Option.none := by
        unfold catalogEntry; rw [h]; rfl
      simp [List.filterMap_cons, h, hce, ih]
    | some uid =>
      have hce : catalogEntry rc gc p = some (uid,
          { id := uid
            name := (dictLookup p "PeripheralName").getD
              (PyVal.str ("Norman " ++ toString uid))
            type := COVER_TYPE_SMARTDRAPE
            room_id := rc.1
            room_name := rc.2
            group_id := gc.1
            group_name := gc.2
            module_type := (dictLookup p "ModuleType").getD PyVal.none
            module_detail := (dictLookup p "ModuleDetail").getD PyVal.none }) := by
        unfold catalogEntry; rw [h]; rfl
      simp [List.filterMap_cons, h, hce, ih]

theorem catalogEntries_map_fst (rooms : List RoomJ) :
    (catalogEntries rooms).map (fun e => e.1) = catalogUids rooms := by
  unfold catalogEntries catalogUids
  rw [List.map_flatMap]
  congr 1
  funext r
  rw [List.map_flatMap]
  congr 1
  funext g
  exact map_fst_filterMap_catalogEntry (roomCtx r.1) (groupCtx g.1) g.2

theorem findLastEntry_isSome_iff (k : Int)
    (l : List (Int × NormanPeripheralData)) :
    (findLastEntry k l).isSome ↔ k ∈ l.map (fun e => e.1) := by
  induction l with
  | nil => simp [findLastEntry]
  | cons e es ih =>
    cases h : findLastEntry k es with
    | some v =>
      simp only [findLastEntry, h]
      have : k ∈ es.map (fun e => e.1) := ih.mp (by rw [h]; rfl)
      simp [this]
    | none =>
      simp only [findLastEntry, h]
      by_cases he : e.1 = k
      · simp [he]
      · have hne : ¬ k = e.1 := fun hh => he hh.symm
        have : ¬ (findLastEntry k es).isSome := by rw [h]; simp
        simp [he, hne, ← ih, this]

theorem lastRel_isSome_iff (k : Int) (peris : List PyDict) :
    (lastRel k peris).isSome ↔ k ∈ statusUids peris := by
  induction peris with
  | nil => simp [lastRel, statusUids]
  | cons p rest ih =>
    cases h : lastRel k rest with
    | some q =>
      simp only [lastRel, h]
      have : k ∈ statusUids rest := ih.mp (by rw [h]; rfl)
      simp only [statusUids] at this ⊢
      cases hu : uidOf p <;> simp [List.filterMap_cons, hu, this]
    | none =>
      simp only [lastRel, h]
      have hmem : ¬ k ∈ List.filterMap uidOf rest := by
        intro hk
        have := ih.mpr (by simpa [statusUids] using hk)
        rw [h] at this
        simp at this
      simp only [statusUids, List.filterMap_cons]
      cases hu : uidOf p with
      | none => simp [hu, hmem]
      | some uid =>
        by_cases hk : uid = k
        · subst hk; simp [hu]
        · have hne : ¬ k = uid := fun hh => hk hh.symm
          simp [hu, hne, hk, hmem]

/-- Full characterisation of one key of the merged snapshot: the last
status entry for the key overlays the last catalog entry for the key (or
the synthesized minimal record); with no status entry the catalog entry
stands; with neither, the key is absent. -/
theorem mergePure_lookup (rooms : List RoomJ) (peris : List PyDict) (k : Int) :
    devLookup (mergePure rooms peris) k =
      match lastRel k peris with
      | some p => some (overlay
          ((findLastEntry k (catalogEntries rooms)).getD (minimalRec k)) p)
      | Option.none => findLastEntry k (catalogEntries rooms) := by
  unfold mergePure catalogPass
  rw [devLookup_foldl_statusStep]
  have hcat : devLookup (insertEntries [] (catalogEntries rooms)) k =
      findLastEntry k (catalogEntries rooms) := by
    rw [devLookup_insertEntries]
    cases hh : findLastEntry k (catalogEntries rooms) <;> simp [devLookup]
  rw [hcat]

/-- C2: for every well-shaped catalog and status input, `_process_data`
succeeds and the key set of the returned snapshot is exactly the set of
parseable integer peripheral IDs appearing in either input; the key list
has no duplicates, so each ID maps to exactly one record. -/
theorem C2_keyset_exact (rooms : List RoomJ) (peris : List PyDict) :
    ∃ devs : Devices,
      process_data (mkCatalog rooms) (mkStatus peris) = Except.ok devs ∧
      (∀ k : Int, (devLookup devs k).isSome ↔
        (k ∈ catalogUids rooms ∨ k ∈ statusUids peris)) ∧
      (devKeys devs).Nodup := by
  refine ⟨mergePure rooms peris, process_data_mk rooms peris, ?_, ?_⟩
  · intro k
    rw [mergePure_lookup]
    cases h : lastRel k peris with
    | some p =>
      have hs : k ∈ statusUids peris :=
        (lastRel_isSome_iff k peris).mp (by rw [h]; rfl)
      simp [hs]
    | none =>
      have hs : ¬ k ∈ statusUids peris := by
        intro hk
        have := (lastRel_isSome_iff k peris).mpr hk
        rw [h] at this
        simp at this
      rw [findLastEntry_isSome_iff, catalogEntries_map_fst]
      simp [hs]
  · exact nodup_devKeys_statusFold peris _
      (nodup_devKeys_insertEntries [] _ (by simp [devKeys]))

/-- The catalog of the spec's end-to-end example, with the real hub key
names: one room "Den" containing one group "Main" containing one
peripheral uid 5 named "Blind". -/
def catalogC8 : PyDict :=
  mkCatalog [([("RoomID", PyVal.int 1), ("RoomName", PyVal.str "Den")],
    [([("GroupID", PyVal.int 1), ("GroupName", PyVal.str "Main")],
      [[("PeripheralUID", PyVal.int 5), ("PeripheralName", PyVal.str "Blind")]])])]

/-- The status of the spec's end-to-end example. -/
def statusC8 : PyDict :=
  mkStatus [[("PeripheralUID", PyVal.int 5), ("BottomRailPosition", PyVal.int 40)]]

/-- The single record the end-to-end example must produce. -/
def recC8 : NormanPeripheralData :=
  { id := 5
    name := PyVal.str "Blind"
    type := COVER_TYPE_SMARTDRAPE
    room_id := PyVal.int 1
    room_name := PyVal.str "Den"
    group_id := PyVal.int 1
    group_name := PyVal.str "Main"
    bottom_rail_position := PyVal.int 40 }

/-- C8: on the concrete catalog/status pair of the spec's end-to-end
example, the merged snapshot is exactly one record with id 5, name
"Blind", bottom_rail_position 40 and room_name "Den". -/
theorem C8_end_to_end :
    process_data catalogC8 statusC8 = Except.ok [(5, recC8)] ∧
    recC8.id = 5 ∧ recC8.name = PyVal.str "Blind" ∧
    recC8.bottom_rail_position = PyVal.int 40 ∧
    recC8.room_name = PyVal.str "Den" :=
  ⟨rfl, rfl, rfl, rfl, rfl⟩

/-- Catalog input for C10: a digit-string UID `"5"`, a numeric UID `5`
(which collide on the key 5, the later entry winning), and a float UID
`6.7` (truncated to the key 6). -/
def catalogC10 : PyDict :=
  mkCatalog [([("RoomID", PyVal.int 1)],
    [([("GroupID", PyVal.int 2)],
      [[("PeripheralUID", PyVal.str "5"), ("PeripheralName", PyVal.str "A")],
       [("PeripheralUID", PyVal.int 5), ("PeripheralName", PyVal.str "B")],
       [("PeripheralUID", PyVal.float ⟨67, 10, by decide, by decide⟩),
        ("PeripheralName", PyVal.str "C")]])])]

/-- Status input for C10: a float UID `5.7`, truncated to the key 5. -/
def statusC10 : PyDict :=
  mkStatus [[("PeripheralUID", PyVal.float ratFiveSeven),
    ("BottomRailPosition", PyVal.int 7)]]

/-- Expected record at key 5 for C10. -/
def recC10a : NormanPeripheralData :=
  { id := 5
    name := PyVal.str "B"
    type := COVER_TYPE_SMARTDRAPE
    room_id := PyVal.int 1
    room_name := PyVal.str ""
    group_id := PyVal.int 2
    group_name := PyVal.str ""
    bottom_rail_position := PyVal.int 7 }

/-- Expected record at key 6 for C10. -/
def recC10b : NormanPeripheralData :=
  { id := 6
    name := PyVal.str "C"
    type := COVER_TYPE_SMARTDRAPE
    room_id := PyVal.int 1
    room_name := PyVal.str ""
    group_id := PyVal.int 2
    group_name := PyVal.str "" }

/-- C10: IDs are normalised with Python `int()` in both merge passes: in
the catalog pass the digit string `"5"` is accepted and keyed as the
integer 5, colliding with the numeric UID 5 into one record, and the
non-integral float `6.7` is accepted and truncated to the key 6; in the
status pass the float `5.7` is accepted and truncated to the key 5,
overlaying that same record. -/
theorem C10_int_normalisation :
    pyInt (PyVal.str "5") = some 5 ∧
    pyInt (PyVal.float ratFiveSeven) = some 5 ∧
    pyInt (PyVal.float ⟨67, 10, by decide, by decide⟩) = some 6 ∧
    process_data catalogC10 statusC10 = Except.ok [(5, recC10a), (6, recC10b)] :=
  ⟨by decide, by decide, by decide, rfl⟩

/-- C7: a catalog peripheral whose `PeripheralUID` is missing, `None`, or
rejected by `int()` is excluded from the merged output — the result is the
same as if the entry were absent — and no error is raised (the merge still
returns `Except.ok`), wherever the entry sits in the hierarchy. -/
theorem C7_unparseable_uid_excluded (R1 R2 : List RoomJ) (rf : PyDict)
    (G1 G2 : List GroupJ) (gf : PyDict) (pre post : List PyDict) (p : PyDict)
    (peris : List PyDict) (h : uidOf p = Option.none) :
    process_data
        (mkCatalog (R1 ++ ((rf, G1 ++ ((gf, pre ++ p :: post) :: G2)) :: R2)))
        (mkStatus peris) =
      process_data
        (mkCatalog (R1 ++ ((rf, G1 ++ ((gf, pre ++ post) :: G2)) :: R2)))
        (mkStatus peris) ∧
    ∃ devs,
      process_data
        (mkCatalog (R1 ++ ((rf, G1 ++ ((gf, pre ++ p :: post) :: G2)) :: R2)))
        (mkStatus peris) = Except.ok devs := by
  have hce : ∀ rc gc : PyVal × PyVal, catalogEntry rc gc p = Option.none := by
    intro rc gc
    unfold catalogEntry
    rw [h]
    rfl
  have hentries :
      catalogEntries (R1 ++ ((rf, G1 ++ ((gf, pre ++ p :: post) :: G2)) :: R2)) =
      catalogEntries (R1 ++ ((rf, G1 ++ ((gf, pre ++ post) :: G2)) :: R2)) := by
    unfold catalogEntries
    simp [List.flatMap_append, List.flatMap_cons, List.filterMap_append,
      List.filterMap_cons, hce]
  constructor
  · rw [process_data_mk, process_data_mk]
    unfold mergePure catalogPass
    rw [hentries]
  · exact ⟨_, process_data_mk _ _⟩

/-- C3: for a status entry with a parseable integer ID, `_process_data`'s
status pass stores at that ID a record whose seven status fields are
exactly the entry's `.get` values (so a present-but-null field clears any
prior value), while identity, room/group and module fields come from the
pre-existing record when there is one, and otherwise from a synthesized
minimal record with the default type and absent room/group/module data. -/
theorem C3_status_overlay (devices : Devices) (p : PyDict) (uid : Int)
    (h : uidOf p = some uid) :
    ∃ rec : NormanPeripheralData,
      processStatusEntry devices (PyVal.dict p) =
        Except.ok (devSet devices uid rec) ∧
      rec.bottom_rail_position = (dictLookup p "BottomRailPosition").getD PyVal.none ∧
      rec.middle_rail_position = (dictLookup p "MiddleRailPosition").getD PyVal.none ∧
      rec.target_bottom_rail_position =
        (dictLookup p "TargetBottomRailPosition").getD PyVal.none ∧
      rec.target_middle_rail_position =
        (dictLookup p "TargetMiddleRailPosition").getD PyVal.none ∧
      rec.battery_level = (dictLookup p "BatteryVoltage").getD PyVal.none ∧
      rec.firmware_version = (dictLookup p "FirmwareVersion").getD PyVal.none ∧
      rec.last_update = (dictLookup p "Timestamp").getD PyVal.none ∧
      (∀ b, devLookup devices uid = some b →
        rec.id = b.id ∧ rec.name = b.name ∧ rec.type = b.type ∧
        rec.room_id = b.room_id ∧ rec.room_name = b.room_name ∧
        rec.group_id = b.group_id ∧ rec.group_name = b.group_name ∧
        rec.module_type = b.module_type ∧ rec.module_detail = b.module_detail) ∧
      (devLookup devices uid = Option.none →
        rec.id = uid ∧ rec.name = PyVal.str ("Norman " ++ toString uid) ∧
        rec.type = COVER_TYPE_SMARTDRAPE ∧
        rec.room_id = PyVal.none ∧ rec.room_name = PyVal.none ∧
        rec.group_id = PyVal.none ∧ rec.group_name = PyVal.none ∧
        rec.module_type = PyVal.none ∧ rec.module_detail = PyVal.none) := by
  refine ⟨overlay ((devLookup devices uid).getD (minimalRec uid)) p, ?_,
    rfl, rfl, rfl, rfl, rfl, rfl, rfl, ?_, ?_⟩
  · rw [processStatusEntry_dict]
    unfold statusStep
    rw [h]
  · intro b hb
    rw [hb]
    exact ⟨rfl, rfl, rfl, rfl, rfl, rfl, rfl, rfl, rfl⟩
  · intro hb
    rw [hb]
    exact ⟨rfl, rfl, rfl, rfl, rfl, rfl, rfl, rfl, rfl⟩

/-- Witness for C3 at a concrete input: status entry with UID 3 and an
explicitly null battery voltage, against an empty snapshot. -/
theorem C3_status_overlay_witness :
    uidOf [("PeripheralUID", PyVal.int 3), ("BatteryVoltage", PyVal.none)] =
      some 3 ∧
    ∃ rec : NormanPeripheralData,
      processStatusEntry []
          (PyVal.dict [("PeripheralUID", PyVal.int 3),
            ("BatteryVoltage", PyVal.none)]) =
        Except.ok (devSet [] 3 rec) ∧
      rec.bottom_rail_position =
        (dictLookup [("PeripheralUID", PyVal.int 3),
          ("BatteryVoltage", PyVal.none)] "BottomRailPosition").getD PyVal.none ∧
      rec.middle_rail_position =
        (dictLookup [("PeripheralUID", PyVal.int 3),
          ("BatteryVoltage", PyVal.none)] "MiddleRailPosition").getD PyVal.none ∧
      rec.target_bottom_rail_position =
        (dictLookup [("PeripheralUID", PyVal.int 3),
          ("BatteryVoltage", PyVal.none)] "TargetBottomRailPosition").getD PyVal.none ∧
      rec.target_middle_rail_position =
        (dictLookup [("PeripheralUID", PyVal.int 3),
          ("BatteryVoltage", PyVal.none)] "TargetMiddleRailPosition").getD PyVal.none ∧
      rec.battery_level =
        (dictLookup [("PeripheralUID", PyVal.int 3),
          ("BatteryVoltage", PyVal.none)] "BatteryVoltage").getD PyVal.none ∧
      rec.firmware_version =
        (dictLookup [("PeripheralUID", PyVal.int 3),
          ("BatteryVoltage", PyVal.none)] "FirmwareVersion").getD PyVal.none ∧
      rec.last_update =
        (dictLookup [("PeripheralUID", PyVal.int 3),
          ("BatteryVoltage", PyVal.none)] "Timestamp").getD PyVal.none ∧
      (∀ b, devLookup [] 3 = some b →
        rec.id = b.id ∧ rec.name = b.name ∧ rec.type = b.type ∧
        rec.room_id = b.room_id ∧ rec.room_name = b.room_name ∧
        rec.group_id = b.group_id ∧ rec.group_name = b.group_name ∧
        rec.module_type = b.module_type ∧ rec.module_detail = b.module_detail) ∧
      (devLookup [] 3 = Option.none →
        rec.id = 3 ∧ rec.name = PyVal.str ("Norman " ++ toString (3 : Int)) ∧
        rec.type = COVER_TYPE_SMARTDRAPE ∧
        rec.room_id = PyVal.none ∧ rec.room_name = PyVal.none ∧
        rec.group_id = PyVal.none ∧ rec.group_name = PyVal.none ∧
        rec.module_type = PyVal.none ∧ rec.module_detail = PyVal.none) :=
  ⟨by decide, C3_status_overlay [] _ 3 (by decide)⟩

/-- Witness for C7 at a concrete input: a peripheral with the unparseable
UID `"abc"` sitting between two valid ones. -/
theorem C7_unparseable_uid_excluded_witness :
    uidOf [("PeripheralUID", PyVal.str "abc")] = Option.none ∧
    (process_data
        (mkCatalog [([], [([], [[("PeripheralUID", PyVal.int 1)],
          [("PeripheralUID", PyVal.str "abc")],
          [("PeripheralUID", PyVal.int 2)]])])])
        (mkStatus []) =
      process_data
        (mkCatalog [([], [([], [[("PeripheralUID", PyVal.int 1)],
          [("PeripheralUID", PyVal.int 2)]])])])
        (mkStatus []) ∧
    ∃ devs,
      process_data
        (mkCatalog [([], [([], [[("PeripheralUID", PyVal.int 1)],
          [("PeripheralUID", PyVal.str "abc")],
          [("PeripheralUID", PyVal.int 2)]])])])
        (mkStatus []) = Except.ok devs) :=
  ⟨by decide,
    C7_unparseable_uid_excluded [] [] [] [] [] []
      [[("PeripheralUID", PyVal.int 1)]] [[("PeripheralUID", PyVal.int 2)]]
      [("PeripheralUID", PyVal.str "abc")] [] (by decide)⟩

/-! Order-independence machinery for C9: permutations of the nested
catalog lists and of the status list. -/

/-- The last element of `l` whose derived key is `k`. -/
def lastWith {α : Type} (keyOf : α → Option Int) (k : Int) : List α → Option α
  | [] => Option.none
  | x :: rest =>
    match lastWith keyOf k rest with
    | some q => some q
    | Option.none => if keyOf x = some k then some x else Option.none

theorem lastRel_eq_lastWith (k : Int) (peris : List PyDict) :
    lastRel k peris = lastWith uidOf k peris := by
  induction peris with
  | nil => rfl
  | cons p rest ih =>
    simp only [lastRel, lastWith, ih]
    cases h : lastWith uidOf k rest <;> simp [h]

theorem findLastEntry_eq_lastWith (k : Int)
    (l : List (Int × NormanPeripheralData)) :
    findLastEntry k l =
      (lastWith (fun e => some e.1) k l).map (fun e => e.2) := by
  induction l with
  | nil => rfl
  | cons e es ih =>
    simp only [findLastEntry, lastWith, ih]
    cases h : lastWith (fun e => some e.1) k es with
    | some q => simp
    | none =>
      by_cases he : e.1 = k
      · simp [he]
      · simp [he]

/-- When each key occurs at most once (the derived key list has no
duplicates), the last element with a given key is permutation-invariant. -/
theorem lastWith_perm {α : Type} (keyOf : α → Option Int) (k : Int)
    {l l' : List α} (hp : l.Perm l')
    (hnd : (l.filterMap keyOf).Nodup) :
    lastWith keyOf k l = lastWith keyOf k l' := by
  induction hp with
  | nil => rfl
  | @cons x t t' hp ih =>
    have hnd' : (List.filterMap keyOf t).Nodup := by
      cases h : keyOf x with
      | none => simpa [List.filterMap_cons, h] using hnd
      | some v =>
        rw [List.filterMap_cons, h] at hnd
        exact hnd.of_cons
    simp only [lastWith, ih hnd']
  | swap x y t =>
    simp only [lastWith]
    cases h : lastWith keyOf k t with
    | some q => rfl
    | none =>
      by_cases hx : keyOf x = some k <;> by_cases hy : keyOf y = some k
      · exfalso
        rw [List.filterMap_cons, hy, List.filterMap_cons, hx] at hnd
        simp at hnd
      · simp [hx, hy]
      · simp [hx, hy]
      · simp [hx, hy]
  | trans hp1 hp2 ih1 ih2 =>
    have hnd2 := (hp1.filterMap keyOf).nodup hnd
    rw [ih1 hnd, ih2 hnd2]

/-- Elementwise replacement by `R`-related elements followed by a
permutation of the list. -/
def PermUpTo {α : Type} (R : α → α → Prop) (l l' : List α) : Prop :=
  ∃ m, List.Forall₂ R l m ∧ m.Perm l'

/-- Two groups equal up to a permutation of their peripheral list. -/
def GroupEquiv (g g' : GroupJ) : Prop := g.1 = g'.1 ∧ g.2.Perm g'.2

/-- Two rooms equal up to permutations of their group and peripheral
lists. -/
def RoomEquiv (r r' : RoomJ) : Prop := r.1 = r'.1 ∧ PermUpTo GroupEquiv r.2 r'.2

/-- Two catalogs equal up to permutations of the room, group and
peripheral lists. -/
def CatalogPerm (rooms rooms' : List RoomJ) : Prop :=
  PermUpTo RoomEquiv rooms rooms'

theorem flatMap_perm_of_permUpTo {α β : Type} {R : α → α → Prop}
    (f : α → List β) (hf : ∀ a b, R a b → (f a).Perm (f b))
    {l l' : List α} (h : PermUpTo R l l') :
    (l.flatMap f).Perm (l'.flatMap f) := by
  obtain ⟨m, h2, h3⟩ := h
  have step1 : (l.flatMap f).Perm (m.flatMap f) := by
    clear h3
    induction h2 with
    | nil => exact List.Perm.refl _
    | cons ha _ ih =>
      simp only [List.flatMap_cons]
      exact (hf _ _ ha).append ih
  exact step1.trans (List.Perm.flatMap_right f h3)

theorem catalogEntries_perm {rooms rooms' : List RoomJ}
    (h : CatalogPerm rooms rooms') :
    (catalogEntries rooms).Perm (catalogEntries rooms') := by
  unfold catalogEntries
  refine flatMap_perm_of_permUpTo _ ?_ h
  intro r r' hr
  obtain ⟨hr1, hr2⟩ := hr
  rw [← hr1]
  refine flatMap_perm_of_permUpTo _ ?_ hr2
  intro g g' hg
  obtain ⟨hg1, hg2⟩ := hg
  rw [← hg1]
  exact hg2.filterMap _

theorem filterMap_some_fst (l : List (Int × NormanPeripheralData)) :
    l.filterMap (fun e => some e.1) = l.map (fun e => e.1) := by
  induction l with
  | nil => rfl
  | cons e es ih => simp [List.filterMap_cons, ih]

/-- C9: the merge is idempotent — identical inputs give identical results —
and on well-shaped inputs whose catalog and status ID lists are
duplicate-free, the snapshot is unchanged (as a key-value mapping) under
any permutation of the catalog's room/group/peripheral lists and of the
status's `Peripherals` list. -/
theorem C9_idempotent_order_independent :
    (∀ device_info status_data : PyDict,
      process_data device_info status_data =
        process_data device_info status_data) ∧
    (∀ (rooms rooms' : List RoomJ) (peris peris' : List PyDict)
        (d d' : Devices),
      (catalogUids rooms).Nodup → (statusUids peris).Nodup →
      CatalogPerm rooms rooms' → peris.Perm peris' →
      process_data (mkCatalog rooms) (mkStatus peris) = Except.ok d →
      process_data (mkCatalog rooms') (mkStatus peris') = Except.ok d' →
      ∀ k : Int, devLookup d k = devLookup d' k) := by
  refine ⟨fun _ _ => rfl, ?_⟩
  intro rooms rooms' peris peris' d d' hndc hnds hcp hsp hd hd' k
  rw [process_data_mk] at hd hd'
  have hd2 : d = mergePure rooms peris := by
    cases hd; rfl
  have hd2' : d' = mergePure rooms' peris' := by
    cases hd'; rfl
  subst hd2 hd2'
  rw [mergePure_lookup, mergePure_lookup]
  have hstat : lastRel k peris = lastRel k peris' := by
    rw [lastRel_eq_lastWith, lastRel_eq_lastWith]
    exact lastWith_perm uidOf k hsp hnds
  have hentnd : ((catalogEntries rooms).filterMap (fun e => some e.1)).Nodup := by
    rw [filterMap_some_fst, catalogEntries_map_fst]
    exact hndc
  have hcatl : findLastEntry k (catalogEntries rooms) =
      findLastEntry k (catalogEntries rooms') := by
    rw [findLastEntry_eq_lastWith, findLastEntry_eq_lastWith,
      lastWith_perm (fun e => some e.1) k (catalogEntries_perm hcp) hentnd]
  rw [hstat, hcatl]

/-- Devices produced from the two status entries of the C9 witness, in the
two insertion orders. -/
def devsC9 : Devices := [(1, minimalRec 1), (2, minimalRec 2)]

/-- The same two records in swapped order. -/
def devsC9' : Devices := [(2, minimalRec 2), (1, minimalRec 1)]

/-- Witness for C9 at concrete inputs: an empty catalog and a two-entry
status list processed in both orders yields the same mapping. -/
theorem C9_idempotent_order_independent_witness :
    (catalogUids ([] : List RoomJ)).Nodup ∧
    (statusUids [[("PeripheralUID", PyVal.int 1)],
      [("PeripheralUID", PyVal.int 2)]]).Nodup ∧
    devLookup devsC9 1 = devLookup devsC9' 1 :=
  ⟨by decide, by decide,
    C9_idempotent_order_independent.2 [] []
      [[("PeripheralUID", PyVal.int 1)], [("PeripheralUID", PyVal.int 2)]]
      [[("PeripheralUID", PyVal.int 2)], [("PeripheralUID", PyVal.int 1)]]
      devsC9 devsC9' (by decide) (by decide)
      ⟨[], List.Forall₂.nil, List.Perm.nil⟩
      (List.Perm.swap _ _ _) rfl rfl 1⟩

/-! Embedding of the notification stream framer of
`NormanApiClient.async_listen_notifications` (api.py lines 256-315).

Each chunk returned by `response.content.read` is a byte string, decoded
with `chunk.decode(errors="ignore")` (line 294) and scanned one character
at a time (lines 295-315) with an accumulating buffer and a brace-depth
counter that persist across chunks.  When a `}` brings the depth back to
0, the buffer is handed to `json.loads`; parse failures are logged and
swallowed; parsed objects are yielded iff they contain the key
`"PeripheralList"`; the buffer is cleared either way.

`json.loads` is external library code, so the framer is parameterised by
`parse : List Char → Option PyVal` (`Option.none` modelling
`json.JSONDecodeError`); theorems assume of it only what they state. -/

/-- The character `{` (written via its code point 123). -/
def lbrace : Char := Char.ofNat 123

/-- The character `}` (written via its code point 125). -/
def rbrace : Char := Char.ofNat 125

/-- Mutable state of the framing loop: the accumulated `buffer` string
(modelled as its characters) and the brace `depth` counter (a Python int,
which can go negative on stray closing braces). -/
structure FramerState where
  buffer : List Char
  depth : Int

/-- State at the start of a session: `buffer = ""`, `depth = 0`
(api.py lines 259-260). -/
def initFramer : FramerState := ⟨[], 0⟩

/-- Python `"PeripheralList" in obj` for a parsed value (api.py line 311).
For the dict and list receivers this is key/element membership.  A buffer
handed to `json.loads` always starts with a brace, so a successful parse
of real JSON is a dict; other receivers (on which CPython would raise or
search substrings) are folded into `false`, and the claims about the
framer additionally hypothesise dict-shaped objects. -/
def hasPeripheralList : PyVal → Bool
  | .dict kvs => (dictLookup kvs "PeripheralList").isSome
  | .list xs =>
    xs.any (fun x => match x with
      | .str s => s = "PeripheralList"
      | _ => false)
  | _ => false

/-- One character step of the framer (api.py lines 296-315). -/
def framerStep (parse : List Char → Option PyVal) (st : FramerState)
    (c : Char) : FramerState × List PyVal :=
  if c = lbrace then
    (⟨st.buffer ++ [c], st.depth + 1⟩, [])
  else if c = rbrace then
    let buffer := st.buffer ++ [c]
    let depth := st.depth - 1
    if depth = 0 then
      (⟨[], 0⟩,
        match parse buffer with
        | some obj => if hasPeripheralList obj then [obj] else []
        | Option.none => [])
    else (⟨buffer, depth⟩, [])
  else if st.depth > 0 then
    (⟨st.buffer ++ [c], st.depth⟩, [])
  else (st, [])

/-- The `for char in text` loop (api.py line 295), threading the framer
state and collecting the yielded objects in order. -/
def processChars (parse : List Char → Option PyVal) (st : FramerState) :
    List Char → FramerState × List PyVal
  | [] => (st, [])
  | c :: cs =>
    let r := framerStep parse st c
    let rest := processChars parse r.1 cs
    (rest.1, r.2 ++ rest.2)

/-- Is `b` a UTF-8 continuation byte (`0x80..0xBF`)? -/
def isCont (b : Nat) : Bool := 128 ≤ b && b ≤ 191

/-- Valid second byte of a three-byte sequence led by `b0` (excluding
overlong encodings and surrogates, as CPython does). -/
def isCont3 (b0 b : Nat) : Bool :=
  if b0 = 224 then 160 ≤ b && b ≤ 191
  else if b0 = 237 then 128 ≤ b && b ≤ 159
  else isCont b

/-- Valid second byte of a four-byte sequence led by `b0`. -/
def isCont4 (b0 b : Nat) : Bool :=
  if b0 = 240 then 144 ≤ b && b ≤ 191
  else if b0 = 244 then 128 ≤ b && b ≤ 143
  else isCont b

/-- Fuel-indexed UTF-8 decoder (structurally recursive on the fuel, which
bounds the number of decoding steps; every step consumes at least one
byte, so fuel equal to the byte count is always enough). -/
def utf8go : Nat → List Nat → List Char
  | 0, _ => []
  | _ + 1, [] => []
  | f + 1, b :: rest =>
    if b < 128 then Char.ofNat b :: utf8go f rest
    else if b < 194 then
      -- stray continuation byte or overlong lead C0/C1: skipped
      utf8go f rest
    else if b < 224 then
      match rest with
      | [] => []
      | b2 :: rest2 =>
        if isCont b2 then
          Char.ofNat ((b - 192) * 64 + (b2 - 128)) :: utf8go f rest2
        else utf8go f rest
    else if b < 240 then
      match rest with
      | [] => []
      | b2 :: rest2 =>
        if isCont3 b b2 then
          match rest2 with
          | [] => []
          | b3 :: rest3 =>
            if isCont b3 then
              Char.ofNat ((b - 224) * 4096 + (b2 - 128) * 64 + (b3 - 128)) ::
                utf8go f rest3
            else utf8go f rest2
        else utf8go f rest
    else if b < 245 then
      match rest with
      | [] => []
      | b2 :: rest2 =>
        if isCont4 b b2 then
          match rest2 with
          | [] => []
          | b3 :: rest3 =>
            if isCont b3 then
              match rest3 with
              | [] => []
              | b4 :: rest4 =>
                if isCont b4 then
                  Char.ofNat ((b - 240) * 262144 + (b2 - 128) * 4096 +
                      (b3 - 128) * 64 + (b4 - 128)) :: utf8go f rest4
                else utf8go f rest3
            else utf8go f rest2
        else utf8go f rest
    else
      -- F5..FF: never valid in UTF-8, skipped
      utf8go f rest

/-- Python `chunk.decode(errors="ignore")` for UTF-8 (api.py line 294):
valid sequences decode to their code point; invalid bytes are skipped
(decoding resumes at the first byte not consumed by the bad sequence);
a sequence truncated by the end of the chunk is dropped entirely. -/
def utf8DecodeIgnore (l : List Nat) : List Char :=
  utf8go l.length l

/-- The chunked read loop: each byte chunk is decoded independently and
fed to the framer, whose state persists across chunks; the result is the
list of objects the generator yields, in order. -/
def runFramer (parse : List Char → Option PyVal)
    (chunks : List (List Nat)) : List PyVal :=
  (chunks.foldl (fun acc chunk =>
    let r := processChars parse acc.1 (utf8DecodeIgnore chunk)
    (r.1, acc.2 ++ r.2)) (initFramer, [])).2

/-! Framer lemmas. -/

theorem processChars_append (parse : List Char → Option PyVal)
    (xs ys : List Char) (st : FramerState) :
    processChars parse st (xs ++ ys) =
      ((processChars parse (processChars parse st xs).1 ys).1,
       (processChars parse st xs).2 ++
         (processChars parse (processChars parse st xs).1 ys).2) := by
  induction xs generalizing st with
  | nil => simp [processChars]
  | cons c xs ih =>
    simp only [List.cons_append, processChars, ih, List.append_assoc,
      List.append_eq]

/-- Characters outside any object (depth 0) that are not braces are
dropped without touching the state. -/
theorem processChars_ws (parse : List Char → Option PyVal) (cs : List Char)
    (h : ∀ c ∈ cs, c ≠ lbrace ∧ c ≠ rbrace) :
    processChars parse initFramer cs = (initFramer, []) := by
  induction cs with
  | nil => rfl
  | cons c cs ih =>
    obtain ⟨h1, h2⟩ := h c (List.mem_cons_self c cs)
    have hstep : framerStep parse initFramer c = (initFramer, []) := by
      simp [framerStep, h1, h2, initFramer]
    simp [processChars, hstep,
      ih (fun c hc => h c (List.mem_cons_of_mem _ hc))]

/-- Effect of one character on the brace depth. -/
def braceDelta (c : Char) : Int :=
  if c = lbrace then 1 else if c = rbrace then -1 else 0

/-- Starting from depth `d`, the running depth stays strictly positive on
every proper prefix of `cs` and reaches exactly 0 at its end. -/
def closesAt : Int → List Char → Bool
  | _, [] => false
  | d, c :: rest =>
    if rest.isEmpty then d + braceDelta c == 0
    else decide (0 < d + braceDelta c) && closesAt (d + braceDelta c) rest

/-- A brace-balanced object text: starts with `{`, its brace depth is
strictly positive strictly inside, and returns to 0 exactly at the final
character. -/
def balancedObjText : List Char → Bool
  | [] => false
  | c :: rest => c == lbrace && closesAt 1 rest

/-- What the framer emits when a buffer `t` completes: the parsed object
if parsing succeeds and it contains the key `"PeripheralList"`, nothing
otherwise. -/
def emitted (parse : List Char → Option PyVal) (t : List Char) : List PyVal :=
  match parse t with
  | some obj => if hasPeripheralList obj then [obj] else []
  | Option.none => []

/-- Running the framer inside an object: while the depth stays positive
every character is buffered; the closing brace that returns the depth to 0
emits `emitted` of the full buffer and resets the state. -/
theorem processChars_object (parse : List Char → Option PyVal) :
    ∀ (cs buf : List Char) (d : Int), 0 < d → closesAt d cs = true →
    processChars parse ⟨buf, d⟩ cs = (initFramer, emitted parse (buf ++ cs)) := by
  intro cs
  induction cs with
  | nil =>
    intro buf d _ hc
    simp [closesAt] at hc
  | cons c rest ih =>
    intro buf d hd hc
    cases rest with
    | nil =>
      simp only [closesAt, List.isEmpty_nil, if_true, beq_iff_eq] at hc
      by_cases hcl : c = lbrace
      · rw [hcl] at hc
        simp [braceDelta] at hc
        omega
      · by_cases hcr : c = rbrace
        · rw [hcr] at hc
          simp [braceDelta] at hc
          have hd1 : d = 1 := by omega
          subst hd1
          have hne : ¬ rbrace = lbrace := by decide
          rw [hcr]
          simp [processChars, framerStep, hne, emitted, initFramer]
        · rw [braceDelta, if_neg hcl, if_neg hcr] at hc
          omega
    | cons c2 rest2 =>
      rw [show closesAt d (c :: c2 :: rest2) =
          (decide (0 < d + braceDelta c) &&
            closesAt (d + braceDelta c) (c2 :: rest2)) from rfl,
        Bool.and_eq_true, decide_eq_true_eq] at hc
      obtain ⟨hpos, hcl2⟩ := hc
      have hstep : framerStep parse ⟨buf, d⟩ c =
          (⟨buf ++ [c], d + braceDelta c⟩, []) := by
        by_cases h1 : c = lbrace
        · simp [framerStep, h1, braceDelta]
        · by_cases h2 : c = rbrace
          · have hδ : d + braceDelta c = d - 1 := by
              rw [braceDelta, if_neg h1, if_pos h2]
              omega
            rw [hδ]
            have hne : d - 1 ≠ 0 := by
              rw [hδ] at hpos
              omega
            simp [framerStep, h1, h2, hne,
              show ¬ rbrace = lbrace from by decide]
          · have hδ : d + braceDelta c = d := by
              rw [braceDelta, if_neg h1, if_neg h2]
              omega
            rw [hδ]
            simp [framerStep, h1, h2, hd]
      show (let r := framerStep parse ⟨buf, d⟩ c
        let rest' := processChars parse r.1 (c2 :: rest2)
        (rest'.1, r.2 ++ rest'.2)) = _
      rw [hstep]
      simp only []
      rw [ih (buf ++ [c]) (d + braceDelta c) hpos hcl2]
      simp [List.append_assoc]

/-- From a clean state, one brace-balanced object text emits exactly
`emitted` of itself and returns the state to clean. -/
theorem processChars_balanced (parse : List Char → Option PyVal)
    (t : List Char) (h : balancedObjText t = true) :
    processChars parse initFramer t = (initFramer, emitted parse t) := by
  cases t with
  | nil => simp [balancedObjText] at h
  | cons c rest =>
    simp only [balancedObjText, Bool.and_eq_true, beq_iff_eq] at h
    obtain ⟨hc, hcl⟩ := h
    subst hc
    have hstep : framerStep parse initFramer lbrace = (⟨[lbrace], 1⟩, []) := by
      simp [framerStep, initFramer]
    show (let r := framerStep parse initFramer lbrace
      let rest' := processChars parse r.1 rest
      (rest'.1, r.2 ++ rest'.2)) = _
    rw [hstep]
    simp only []
    rw [processChars_object parse rest [lbrace] 1 (by omega) hcl]
    simp

/-- One whitespace-separated object of a notification stream: separator
characters (no braces), then one brace-balanced object text. -/
structure CharItem where
  sep : List Char
  text : List Char

/-- A whole stream: items in order, then trailing separator characters. -/
def streamChars (items : List CharItem) (sepEnd : List Char) : List Char :=
  items.flatMap (fun it => it.sep ++ it.text) ++ sepEnd

/-- The framer on a stream of separated brace-balanced object texts emits
exactly the `emitted` lists of the texts, in order, and returns to the
clean state — independent of where parsing succeeds or fails. -/
theorem framer_stream_spec (parse : List Char → Option PyVal)
    (items : List CharItem) (sepEnd : List Char)
    (hsep : ∀ it ∈ items, ∀ c ∈ it.sep, c ≠ lbrace ∧ c ≠ rbrace)
    (htext : ∀ it ∈ items, balancedObjText it.text = true)
    (hend : ∀ c ∈ sepEnd, c ≠ lbrace ∧ c ≠ rbrace) :
    processChars parse initFramer (streamChars items sepEnd) =
      (initFramer, items.flatMap (fun it => emitted parse it.text)) := by
  induction items with
  | nil =>
    simp only [streamChars, List.flatMap_nil, List.nil_append]
    exact processChars_ws parse sepEnd hend
  | cons it rest ih =>
    have hstream : streamChars (it :: rest) sepEnd =
        it.sep ++ (it.text ++ streamChars rest sepEnd) := by
      simp [streamChars, List.flatMap_cons, List.append_assoc]
    rw [hstream, processChars_append,
      processChars_ws parse it.sep (hsep it (List.mem_cons_self it rest)),
      processChars_append,
      processChars_balanced parse it.text (htext it (List.mem_cons_self it rest)),
      ih (fun x hx => hsep x (List.mem_cons_of_mem _ hx))
         (fun x hx => htext x (List.mem_cons_of_mem _ hx))]
    simp [List.flatMap_cons]

/-! Decoding lemmas. -/

theorem utf8go_ascii (l : List Nat) (h : ∀ b ∈ l, b < 128) :
    utf8go l.length l = l.map Char.ofNat := by
  induction l with
  | nil => rfl
  | cons b rest ih =>
    have hb : b < 128 := h b (List.mem_cons_self b rest)
    simp only [List.length_cons, List.map_cons]
    show (if b < 128 then Char.ofNat b :: utf8go rest.length rest else _) = _
    simp [hb, ih (fun x hx => h x (List.mem_cons_of_mem _ hx))]

theorem utf8DecodeIgnore_ascii (l : List Nat) (h : ∀ b ∈ l, b < 128) :
    utf8DecodeIgnore l = l.map Char.ofNat :=
  utf8go_ascii l h

theorem runFramer_eq (parse : List Char → Option PyVal)
    (chunks : List (List Nat)) :
    runFramer parse chunks =
      (processChars parse initFramer (chunks.flatMap utf8DecodeIgnore)).2 := by
  suffices h : ∀ (st : FramerState) (acc : List PyVal),
      chunks.foldl (fun acc chunk =>
        let r := processChars parse acc.1 (utf8DecodeIgnore chunk)
        (r.1, acc.2 ++ r.2)) (st, acc) =
      ((processChars parse st (chunks.flatMap utf8DecodeIgnore)).1,
        acc ++ (processChars parse st (chunks.flatMap utf8DecodeIgnore)).2) by
    rw [runFramer, h initFramer []]
    simp
  induction chunks with
  | nil =>
    intro st acc
    simp [processChars]
  | cons ch rest ih =>
    intro st acc
    simp only [List.foldl_cons, List.flatMap_cons]
    rw [processChars_append, ih]
    simp [List.append_assoc]

theorem flatMap_decode_ascii (chunks : List (List Nat))
    (h : ∀ ch ∈ chunks, ∀ b ∈ ch, b < 128) :
    chunks.flatMap utf8DecodeIgnore =
      (chunks.flatMap (fun c => c)).map Char.ofNat := by
  induction chunks with
  | nil => rfl
  | cons ch rest ih =>
    simp only [List.flatMap_cons, List.map_append]
    rw [utf8DecodeIgnore_ascii ch (h ch (List.mem_cons_self ch rest)),
      ih (fun x hx => h x (List.mem_cons_of_mem _ hx))]

theorem flatMap_map_eq {α β γ : Type} (f : α → β) (g : β → List γ)
    (l : List α) : (l.map f).flatMap g = l.flatMap (fun a => g (f a)) := by
  induction l with
  | nil => rfl
  | cons x xs ih => simp [List.flatMap_cons, ih]

/-! Byte-level streams for C1. -/

/-- One whitespace-separated object of a byte stream, together with the
value its text parses to. -/
structure ByteItem where
  sep : List Nat
  text : List Nat
  obj : PyVal

/-- The byte stream carrying the given items, then trailing whitespace. -/
def streamBytes (items : List ByteItem) (sepEnd : List Nat) : List Nat :=
  items.flatMap (fun it => it.sep ++ it.text) ++ sepEnd

/-- JSON whitespace bytes (space, tab, LF, CR). -/
def isWsByte (b : Nat) : Prop := b = 32 ∨ b = 9 ∨ b = 10 ∨ b = 13

instance (b : Nat) : Decidable (isWsByte b) := by
  unfold isWsByte
  infer_instance

theorem streamBytes_map (items : List ByteItem) (sepEnd : List Nat) :
    (streamBytes items sepEnd).map Char.ofNat =
      streamChars
        (items.map (fun it =>
          ⟨it.sep.map Char.ofNat, it.text.map Char.ofNat⟩))
        (sepEnd.map Char.ofNat) := by
  simp only [streamBytes, streamChars, List.map_append]
  congr 1
  rw [List.map_flatMap, flatMap_map_eq]
  congr 1
  funext it
  simp [List.map_append]

theorem flatMap_emitted_eq (parse : List Char → Option PyVal)
    (items : List ByteItem)
    (hparse : ∀ it ∈ items, parse (it.text.map Char.ofNat) = some it.obj) :
    items.flatMap (fun it => emitted parse (it.text.map Char.ofNat)) =
      (items.map (fun it => it.obj)).filter hasPeripheralList := by
  induction items with
  | nil => rfl
  | cons it rest ih =>
    simp only [List.flatMap_cons, List.map_cons, List.filter_cons]
    rw [emitted, hparse it (List.mem_cons_self it rest)]
    have ihr := ih (fun x hx => hparse x (List.mem_cons_of_mem _ hx))
    cases h : hasPeripheralList it.obj <;> simp [h, ihr]

/-- C1 (amended): for every ASCII byte stream made of well-formed,
brace-balanced JSON objects interspersed with whitespace, and every way of
splitting it into chunks (including splits inside an object), the framer
yields exactly the objects containing the key `"PeripheralList"`, in
order, and no object lacking it.  (The ASCII restriction is forced by
`C1_multibyte_counterexample`: the per-chunk `errors="ignore"` decode
corrupts a multi-byte character cut by a chunk boundary.) -/
theorem C1_framer_exact_ascii (parse : List Char → Option PyVal)
    (items : List ByteItem) (sepEnd : List Nat) (chunks : List (List Nat))
    (hjoin : chunks.flatMap (fun c => c) = streamBytes items sepEnd)
    (hsep : ∀ it ∈ items, ∀ b ∈ it.sep, isWsByte b)
    (hascii : ∀ it ∈ items, ∀ b ∈ it.text, b < 128)
    (hbal : ∀ it ∈ items, balancedObjText (it.text.map Char.ofNat) = true)
    (hparse : ∀ it ∈ items, parse (it.text.map Char.ofNat) = some it.obj)
    (_hdict : ∀ it ∈ items, ∃ kvs, it.obj = PyVal.dict kvs)
    (hend : ∀ b ∈ sepEnd, isWsByte b) :
    runFramer parse chunks =
      (items.map (fun it => it.obj)).filter hasPeripheralList := by
  have hall : ∀ b ∈ streamBytes items sepEnd, b < 128 := by
    intro b hb
    rcases List.mem_append.mp hb with h | h
    · rcases List.mem_flatMap.mp h with ⟨it, hit, hbit⟩
      rcases List.mem_append.mp hbit with h' | h'
      · rcases hsep it hit b h' with h'' | h'' | h'' | h'' <;> omega
      · exact hascii it hit b h'
    · rcases hend b h with h'' | h'' | h'' | h'' <;> omega
  have hchunks : ∀ ch ∈ chunks, ∀ b ∈ ch, b < 128 := by
    intro ch hch b hb
    apply hall
    rw [← hjoin]
    exact List.mem_flatMap.mpr ⟨ch, hch, hb⟩
  have hsep' : ∀ it' ∈ items.map (fun it =>
        (⟨it.sep.map Char.ofNat, it.text.map Char.ofNat⟩ : CharItem)),
      ∀ c ∈ it'.sep, c ≠ lbrace ∧ c ≠ rbrace := by
    intro it' hit' c hc
    rcases List.mem_map.mp hit' with ⟨it, hit, rfl⟩
    rcases List.mem_map.mp hc with ⟨b, hb, rfl⟩
    rcases hsep it hit b hb with h | h | h | h <;> subst h <;>
      exact ⟨by decide, by decide⟩
  have htext' : ∀ it' ∈ items.map (fun it =>
        (⟨it.sep.map Char.ofNat, it.text.map Char.ofNat⟩ : CharItem)),
      balancedObjText it'.text = true := by
    intro it' hit'
    rcases List.mem_map.mp hit' with ⟨it, hit, rfl⟩
    exact hbal it hit
  have hend' : ∀ c ∈ sepEnd.map Char.ofNat, c ≠ lbrace ∧ c ≠ rbrace := by
    intro c hc
    rcases List.mem_map.mp hc with ⟨b, hb, rfl⟩
    rcases hend b hb with h | h | h | h <;> subst h <;>
      exact ⟨by decide, by decide⟩
  rw [runFramer_eq, flatMap_decode_ascii chunks hchunks, hjoin,
    streamBytes_map, framer_stream_spec parse _ _ hsep' htext' hend']
  show (items.map (fun it =>
      (⟨it.sep.map Char.ofNat, it.text.map Char.ofNat⟩ : CharItem))).flatMap
        (fun it => emitted parse it.text) = _
  rw [flatMap_map_eq]
  exact flatMap_emitted_eq parse items hparse

/-! Concrete multi-byte counterexample for C1 as originally stated. -/

/-- The characters `"PeripheralList":"` (no braces). -/
def keyChars : List Char := "\"PeripheralList\":\"".toList

/-- The same characters as bytes (all ASCII). -/
def keyBytes : List Nat := keyChars.map Char.toNat

/-- UTF-8 bytes of the JSON object whose single key is `PeripheralList`
and whose value is the string `é` (code point 233, bytes `C3 A9`). -/
def goodBytes : List Nat := 123 :: keyBytes ++ [195, 169, 34, 125]

/-- First chunk: everything up to and including the lead byte `C3` of
`é` — a split falling inside the object, inside a character. -/
def chunkA : List Nat := 123 :: keyBytes ++ [195]

/-- Second chunk: the continuation byte `A9` and the rest. -/
def chunkB : List Nat := [169, 34, 125]

/-- The decoded text of the whole object. -/
def goodText : List Char :=
  lbrace :: keyChars ++ [Char.ofNat 233, Char.ofNat 34, rbrace]

/-- What the framer actually buffers when the stream is split at `C3`:
the `é` is gone, leaving the (still valid) JSON text with value `""`. -/
def mangledText : List Char := lbrace :: keyChars ++ [Char.ofNat 34, rbrace]

/-- Parse result of the intact text under `json.loads`. -/
def objOrig : PyVal :=
  PyVal.dict [("PeripheralList", PyVal.str (String.mk [Char.ofNat 233]))]

/-- Parse result of the mangled text under `json.loads`. -/
def objMangled : PyVal := PyVal.dict [("PeripheralList", PyVal.str "")]

/-- The JSON parser restricted to the two texts that occur in this run
(its values agree with `json.loads` there). -/
def parseC1 : List Char → Option PyVal := fun t =>
  if t = goodText then some objOrig
  else if t = mangledText then some objMangled
  else Option.none

/-- C1 counterexample: the byte stream `goodBytes` is a single
well-formed, brace-balanced JSON object containing the key
`"PeripheralList"`; read in one chunk the framer yields exactly it, but
under the chunk split `chunkA / chunkB` — which falls inside the two-byte
character `é` — the per-chunk `errors="ignore"` decode drops both bytes
and the framer yields a different object, so it does not yield "exactly
those objects" for every split of this stream. -/
theorem C1_multibyte_counterexample :
    chunkA ++ chunkB = goodBytes ∧
    utf8DecodeIgnore goodBytes = goodText ∧
    balancedObjText goodText = true ∧
    parseC1 goodText = some objOrig ∧
    hasPeripheralList objOrig = true ∧
    runFramer parseC1 [goodBytes] = [objOrig] ∧
    runFramer parseC1 [chunkA, chunkB] = [objMangled] ∧
    runFramer parseC1 [chunkA, chunkB] ≠ [objOrig] := by
  have hne : objMangled ≠ objOrig := by
    intro h
    have h2 := congrArg (fun v =>
      match v with
      | PyVal.dict (("PeripheralList", PyVal.str s) :: _) => s
      | _ => "") h
    exact absurd h2 (by decide)
  refine ⟨rfl, by decide, by decide, rfl, rfl, rfl, rfl, ?_⟩
  intro h
  rw [show runFramer parseC1 [chunkA, chunkB] = [objMangled] from rfl] at h
  exact hne (List.cons.inj h).1

/-- Parser for the C1 witness run (matches `json.loads` on the two object
texts of the stream). -/
def parseW1 : List Char → Option PyVal := fun t =>
  if t = lbrace :: "\"PeripheralList\":1".toList ++ [rbrace] then
    some (PyVal.dict [("PeripheralList", PyVal.int 1)])
  else if t = lbrace :: "\"A\":2".toList ++ [rbrace] then
    some (PyVal.dict [("A", PyVal.int 2)])
  else Option.none

/-- The two stream items of the C1 witness: one notification object and
one acknowledgement-style object without the key. -/
def itemsW1 : List ByteItem :=
  [⟨[32], (lbrace :: "\"PeripheralList\":1".toList ++ [rbrace]).map Char.toNat,
    PyVal.dict [("PeripheralList", PyVal.int 1)]⟩,
   ⟨[10], (lbrace :: "\"A\":2".toList ++ [rbrace]).map Char.toNat,
    PyVal.dict [("A", PyVal.int 2)]⟩]

/-- A chunking of the witness stream that splits inside the first object. -/
def chunksW1 : List (List Nat) :=
  [(streamBytes itemsW1 [32]).take 7, (streamBytes itemsW1 [32]).drop 7]

/-- Witness for C1 at a concrete ASCII stream: two objects, a split inside
the first one; only the object with the key is yielded. -/
theorem C1_framer_exact_ascii_witness :
    chunksW1.flatMap (fun c => c) = streamBytes itemsW1 [32] ∧
    runFramer parseW1 chunksW1 =
      (itemsW1.map (fun it => it.obj)).filter hasPeripheralList ∧
    runFramer parseW1 chunksW1 = [PyVal.dict [("PeripheralList", PyVal.int 1)]] := by
  have hjoin : chunksW1.flatMap (fun c => c) = streamBytes itemsW1 [32] := by
    show (streamBytes itemsW1 [32]).take 7 ++
      ((streamBytes itemsW1 [32]).drop 7 ++ []) = streamBytes itemsW1 [32]
    rw [List.append_nil, List.take_append_drop]
  have hmem : ∀ it ∈ itemsW1,
      it = itemsW1[0] ∨ it = itemsW1[1] := by
    intro it hit
    rcases List.mem_cons.mp hit with h | h
    · exact Or.inl h
    · rcases List.mem_cons.mp h with h2 | h2
      · exact Or.inr h2
      · cases h2
  have hmain := C1_framer_exact_ascii parseW1 itemsW1 [32] chunksW1 hjoin
    (by intro it hit b hb
        rcases hmem it hit with h | h <;> subst h <;> revert b hb <;> decide)
    (by intro it hit b hb
        rcases hmem it hit with h | h <;> subst h <;> revert b hb <;> decide)
    (by intro it hit
        rcases hmem it hit with h | h <;> subst h <;> decide)
    (by intro it hit
        rcases hmem it hit with h | h <;> subst h <;> rfl)
    (by intro it hit
        rcases hmem it hit with h | h <;> subst h
        · exact ⟨_, rfl⟩
        · exact ⟨_, rfl⟩)
    (by intro b hb
        revert b hb
        decide)
  refine ⟨hjoin, hmain, ?_⟩
  rw [hmain]
  rfl

/-- C6: (a) the framer only emits when a closing brace returns the depth
to exactly 0, the emitted value is the successful parse of the whole
buffer (never a partial buffer), and the buffer is cleared; (b) on any
stream of separated brace-balanced object texts — whether or not each
text parses — the framer is a total function that emits exactly the
successfully parsed marker-carrying objects, so a parse failure clears
the buffer, raises nothing, and does not block later objects. -/
theorem C6_framer_safety (parse : List Char → Option PyVal) :
    (∀ (st : FramerState) (c : Char),
      (framerStep parse st c).2 ≠ [] →
      (framerStep parse st c).1.depth = 0 ∧
      (framerStep parse st c).1.buffer = [] ∧
      st.depth + braceDelta c = 0 ∧
      ∃ obj, (framerStep parse st c).2 = [obj] ∧
        parse (st.buffer ++ [c]) = some obj ∧
        hasPeripheralList obj = true) ∧
    (∀ (items : List CharItem) (sepEnd : List Char),
      (∀ it ∈ items, ∀ c ∈ it.sep, c ≠ lbrace ∧ c ≠ rbrace) →
      (∀ it ∈ items, balancedObjText it.text = true) →
      (∀ c ∈ sepEnd, c ≠ lbrace ∧ c ≠ rbrace) →
      processChars parse initFramer (streamChars items sepEnd) =
        (initFramer, items.flatMap (fun it => emitted parse it.text))) := by
  constructor
  · intro st c hne
    by_cases h1 : c = lbrace
    · exact absurd (by simp [framerStep, h1]) hne
    · by_cases h2 : c = rbrace
      · subst h2
        by_cases h3 : st.depth - 1 = 0
        · have hstep : framerStep parse st rbrace =
              (⟨[], 0⟩, match parse (st.buffer ++ [rbrace]) with
                | some obj => if hasPeripheralList obj then [obj] else []
                | Option.none => []) := by
            simp [framerStep, (by decide : ¬ rbrace = lbrace), h3]
          rw [hstep] at hne ⊢
          refine ⟨rfl, rfl, ?_, ?_⟩
          · rw [braceDelta, if_neg (by decide), if_pos rfl]
            omega
          · cases hp : parse (st.buffer ++ [rbrace]) with
            | none =>
              rw [hp] at hne
              exact absurd rfl hne
            | some obj =>
              rw [hp] at hne
              by_cases hk : hasPeripheralList obj
              · exact ⟨obj, by simp [hk], rfl, hk⟩
              · exact absurd (by simp [hk]) hne
        · exact absurd
            (by simp [framerStep, (by decide : ¬ rbrace = lbrace), h3]) hne
      · by_cases h4 : st.depth > 0
        · exact absurd (by simp [framerStep, h1, h2, h4]) hne
        · exact absurd (by simp [framerStep, h1, h2, h4]) hne
  · exact framer_stream_spec parse

/-- Parser for the C6 witness run: fails on the first (corrupt) buffer,
succeeds on the second. -/
def parseW6 : List Char → Option PyVal := fun t =>
  if t = [lbrace, rbrace] then some (PyVal.dict [("PeripheralList", PyVal.none)])
  else Option.none

/-- Stream for the C6 witness: a brace-balanced text whose parse fails,
then one that parses and carries the key. -/
def itemsW6 : List CharItem :=
  [⟨[' '], [lbrace, lbrace, rbrace, rbrace]⟩, ⟨[' '], [lbrace, rbrace]⟩]

/-- Witness for C6 at concrete inputs: an emission step (closing brace at
depth 1) resets the state, and a stream containing one failing text still
yields the later object. -/
theorem C6_framer_safety_witness :
    (framerStep parseW6 ⟨[lbrace], 1⟩ rbrace).1.depth = 0 ∧
    (framerStep parseW6 ⟨[lbrace], 1⟩ rbrace).1.buffer = [] ∧
    processChars parseW6 initFramer (streamChars itemsW6 [' ']) =
      (initFramer, [PyVal.dict [("PeripheralList", PyVal.none)]]) := by
  have hemit := (C6_framer_safety parseW6).1 ⟨[lbrace], 1⟩ rbrace
    (by rw [show (framerStep parseW6 ⟨[lbrace], 1⟩ rbrace).2 =
          [PyVal.dict [("PeripheralList", PyVal.none)]] from rfl]
        simp)
  have hstream := (C6_framer_safety parseW6).2 itemsW6 [' ']
    (by intro it hit c hc
        rcases List.mem_cons.mp hit with h | h
        · subst h; revert c hc; decide
        · rcases List.mem_cons.mp h with h2 | h2
          · subst h2; revert c hc; decide
          · cases h2)
    (by intro it hit
        rcases List.mem_cons.mp hit with h | h
        · subst h; decide
        · rcases List.mem_cons.mp h with h2 | h2
          · subst h2; decide
          · cases h2)
    (by intro c hc; revert c hc; decide)
  refine ⟨hemit.1, hemit.2.1, ?_⟩
  rw [hstream]
  rfl

/-! Embedding of `NormanCoordinator.listen_notifications` (coordinator.py
lines 38-68) as a trace semantics.  The loop body runs one notification
session (`async for` over `async_listen_notifications`), awaiting
`async_refresh` after every notification; on `CancelledError` it returns;
on `NormanPeriodicReconnectError` it `continue`s straight into the next
session; on `NormanConnectionError` — and likewise when the stream simply
closes and the `async for` ends — it falls through to
`asyncio.sleep(RECONNECT_INTERVAL)` followed by one `async_refresh`, then
loops.  A script assigns each successive session its notification count
and its ending; the trace lists the observable events in order
(cancellation during the backoff sleep, which just ends the trace, is not
scripted since no claim depends on it). -/

/-- Observable events of the reconnect loop. -/
inductive Event where
  | sessionStart
  | notify
  | refresh
  | sleep (secs : Nat)
  deriving DecidableEq

/-- The four ways the `try` body of one loop iteration can end. -/
inductive SessionEnd where
  | cancelled
  | connectionError
  | periodicReconnect
  | streamClosed
  deriving DecidableEq

/-- Script for one session: how many notifications arrive, then how the
session ends. -/
structure Session where
  notifs : Nat
  ending : SessionEnd

/-- Each received notification is logged and followed by one
`await self.async_refresh()` (coordinator.py lines 42-44). -/
def notifyEvents : Nat → List Event
  | 0 => []
  | n + 1 => Event.notify :: Event.refresh :: notifyEvents n

/-- Events observable inside one session: the connection attempt, then the
notification/refresh pairs. -/
def sessionEvents (n : Nat) : List Event :=
  Event.sessionStart :: notifyEvents n

/-- Trace of `listen_notifications` over a finite script. -/
def listen_notifications : List Session → List Event
  | [] => []
  | s :: rest =>
    sessionEvents s.notifs ++
    match s.ending with
    | .cancelled => []
    | .periodicReconnect => listen_notifications rest
    | .connectionError =>
      Event.sleep RECONNECT_INTERVAL :: Event.refresh ::
        listen_notifications rest
    | .streamClosed =>
      Event.sleep RECONNECT_INTERVAL :: Event.refresh ::
        listen_notifications rest

/-- C4: a session ending with the periodic-reconnect signal is followed by
the next session start immediately — zero events, in particular zero
backoff sleep, in between — whereas a session ending with a transport
failure is followed by exactly one sleep of `RECONNECT_INTERVAL` (= 15
seconds) and then one device-state refresh before the next session
start. -/
theorem C4_reconnect_timing (n : Nat) (s : Session) (rest : List Session) :
    (∃ t, listen_notifications
          ({ notifs := n, ending := .periodicReconnect } :: s :: rest) =
        sessionEvents n ++ Event.sessionStart :: t ∧
      listen_notifications (s :: rest) = Event.sessionStart :: t) ∧
    (∃ t, listen_notifications
          ({ notifs := n, ending := .connectionError } :: s :: rest) =
        sessionEvents n ++ Event.sleep RECONNECT_INTERVAL :: Event.refresh ::
          Event.sessionStart :: t ∧
      listen_notifications (s :: rest) = Event.sessionStart :: t) ∧
    RECONNECT_INTERVAL = 15 := by
  have hs : ∃ t, listen_notifications (s :: rest) = Event.sessionStart :: t := by
    cases s with
    | mk n2 e2 => cases e2 <;> exact ⟨_, rfl⟩
  obtain ⟨t, ht⟩ := hs
  refine ⟨⟨t, ?_, ht⟩, ⟨t, ?_, ht⟩, rfl⟩
  · show sessionEvents n ++ listen_notifications (s :: rest) =
      sessionEvents n ++ Event.sessionStart :: t
    rw [ht]
  · show sessionEvents n ++ Event.sleep RECONNECT_INTERVAL :: Event.refresh ::
        listen_notifications (s :: rest) = _
    rw [ht]

/-- C5 counterexample: a session that ends with the periodic-reconnect
signal is followed by the next session start with no refresh before or
upon it — the whole two-session trace contains no refresh event at all,
so the loop does not refresh after every reconnect. -/
theorem C5_counterexample :
    listen_notifications
        [{ notifs := 0, ending := .periodicReconnect },
         { notifs := 0, ending := .cancelled }] =
      [Event.sessionStart, Event.sessionStart] ∧
    Event.refresh ∉ listen_notifications
        [{ notifs := 0, ending := .periodicReconnect },
         { notifs := 0, ending := .cancelled }] :=
  ⟨rfl, by decide⟩

/-- C5 (amended): the loop refreshes device state before the next session
only for reconnects that follow a transport failure or a normal stream
close; a periodic-reconnect starts the next session immediately with no
refresh in between. -/
theorem C5_refresh_on_failure_reconnects (n : Nat) (s : Session)
    (rest : List Session) :
    (∃ t, listen_notifications
          ({ notifs := n, ending := .connectionError } :: s :: rest) =
        sessionEvents n ++ Event.sleep RECONNECT_INTERVAL :: Event.refresh ::
          Event.sessionStart :: t) ∧
    (∃ t, listen_notifications
          ({ notifs := n, ending := .streamClosed } :: s :: rest) =
        sessionEvents n ++ Event.sleep RECONNECT_INTERVAL :: Event.refresh ::
          Event.sessionStart :: t) ∧
    (∃ t, listen_notifications
          ({ notifs := n, ending := .periodicReconnect } :: s :: rest) =
        sessionEvents n ++ Event.sessionStart :: t) := by
  have hs : ∃ t, listen_notifications (s :: rest) = Event.sessionStart :: t := by
    cases s with
    | mk n2 e2 => cases e2 <;> exact ⟨_, rfl⟩
  obtain ⟨t, ht⟩ := hs
  refine ⟨⟨t, ?_⟩, ⟨t, ?_⟩, ⟨t, ?_⟩⟩
  · show sessionEvents n ++ Event.sleep RECONNECT_INTERVAL :: Event.refresh ::
        listen_notifications (s :: rest) = _
    rw [ht]
  · show sessionEvents n ++ Event.sleep RECONNECT_INTERVAL :: Event.refresh ::
        listen_notifications (s :: rest) = _
    rw [ht]
  · show sessionEvents n ++ listen_notifications (s :: rest) = _
    rw [ht]

end Norman
